import Mathlib

/-!
Verification development for the nanobot agent core.

This file gives a shallow embedding, in Lean 4, of the components of the
nanobot repository that the checked properties talk about:

* `nanobot/bus/queue.py` — the message bus (queues, shutdown sentinels,
  subscriber notification with a dead-letter queue);
* `nanobot/agent/safety.py` — the oscillation detector (write
  classification, argument normalization, the sliding window check);
* `nanobot/agent/tools/base.py` — the JSON-schema parameter validator;
* `nanobot/agent/tools/registry.py` — the tool registry execution wrapper;
* `nanobot/agent/router.py` — intent classification;
* `nanobot/agent/loop.py` — the routing fallback and the safety/force
  interceptor of the orchestration loop.

Python dictionaries are modelled as association lists over a small JSON
value type, machine text as Lean strings or lists of characters, and
fallible code as `Except`.  Definitions follow the Python source; theorems
about them come after all definitions.
-/

namespace Nanobot

/-- JSON-like values, modelling the argument values that tool calls carry
(`dict[str, Any]` in the source).  Numbers are modelled as integers. -/
inductive JVal where
  | null : JVal
  | bool (b : Bool) : JVal
  | int (n : Int) : JVal
  | str (s : String) : JVal
  | arr (elems : List JVal) : JVal
  | obj (fields : List (String × JVal)) : JVal

mutual

/-- Structural equality on modelled JSON values (used for `enum`
membership, mirroring Python `in` on the modelled value type). -/
def jvalBeq : JVal → JVal → Bool
  | .null, .null => true
  | .bool a, .bool b => a == b
  | .int a, .int b => a == b
  | .str a, .str b => a == b
  | .arr a, .arr b => jvalListBeq a b
  | .obj a, .obj b => jvalFieldsBeq a b
  | _, _ => false

/-- Elementwise equality on lists of JSON values. -/
def jvalListBeq : List JVal → List JVal → Bool
  | [], [] => true
  | x :: xs, y :: ys => jvalBeq x y && jvalListBeq xs ys
  | _, _ => false

/-- Elementwise equality on JSON object fields. -/
def jvalFieldsBeq : List (String × JVal) → List (String × JVal) → Bool
  | [], [] => true
  | (k1, v1) :: xs, (k2, v2) :: ys =>
    k1 == k2 && jvalBeq v1 v2 && jvalFieldsBeq xs ys
  | _, _ => false

end

/-- Python truthiness (`bool(x)`) on the modelled values. -/
def JVal.truthy : JVal → Bool
  | .null => false
  | .bool b => b
  | .int n => n != 0
  | .str s => s != ""
  | .arr l => !l.isEmpty
  | .obj l => !l.isEmpty

/-- First value bound to a key in an association list (`dict.get`). -/
def lookupKey (key : String) : List (String × JVal) → Option JVal
  | [] => none
  | (k, v) :: rest => if k = key then some v else lookupKey key rest

/-- Python whitespace characters recognised by `str.strip` and `\s`
(ASCII fragment). -/
def isPySpace (c : Char) : Bool :=
  c = ' ' || c = '\t' || c = '\n' || c = '\x0d' || c = '\x0b' || c = '\x0c'

/-- `str.strip()`: remove leading and trailing whitespace. -/
def pyStrip (s : String) : String :=
  let chars := s.data
  let trimmed := ((chars.dropWhile isPySpace).reverse.dropWhile isPySpace).reverse
  String.mk trimmed

/-! ## Message bus (`nanobot/bus/queue.py`) -/

/-- An item of the inbound queue: a message or the shutdown sentinel
(`_InboundShutdown`).  Message payloads are modelled as strings. -/
inductive InItem where
  | msg (m : String) : InItem
  | sentinel : InItem
deriving Repr, DecidableEq

/-- An item of the outbound queue: a message or the shutdown sentinel
(`_OutboundShutdown`). -/
inductive OutItem where
  | msg (m : String) : OutItem
  | sentinel : OutItem
deriving Repr, DecidableEq

/-- State of `MessageBus`: the two queues (front of list = head of queue)
and the two shutdown flags. -/
structure BusState where
  inbound : List InItem
  outbound : List OutItem
  inShutdown : Bool
  outShutdown : Bool
deriving Repr, DecidableEq

/-- The freshly constructed bus (`MessageBus.__init__`). -/
def initBus : BusState :=
  { inbound := [], outbound := [], inShutdown := false, outShutdown := false }

/-- `MessageBus.stop`: flip each flag once and enqueue a one-time shutdown
sentinel on the corresponding queue. -/
def busStop (b : BusState) : BusState :=
  let b1 :=
    if !b.inShutdown then
      { b with inShutdown := true, inbound := b.inbound ++ [InItem.sentinel] }
    else b
  if !b1.outShutdown then
    { b1 with outShutdown := true, outbound := b1.outbound ++ [OutItem.sentinel] }
  else b1

/-- `MessageBus.publish_inbound`: drop the message once shutdown was
requested, otherwise enqueue it. -/
def publishInbound (b : BusState) (m : String) : BusState :=
  if b.inShutdown then b
  else { b with inbound := b.inbound ++ [InItem.msg m] }

/-- `MessageBus.publish_outbound`: drop the message once shutdown was
requested, otherwise enqueue it. -/
def publishOutbound (b : BusState) (m : String) : BusState :=
  if b.outShutdown then b
  else { b with outbound := b.outbound ++ [OutItem.msg m] }

/-- A bus operation issued by a producer or the shutdown path. -/
inductive BusOp where
  | pubIn (m : String) : BusOp
  | pubOut (m : String) : BusOp
  | stopOp : BusOp
deriving Repr, DecidableEq

/-- Apply one bus operation. -/
def applyBusOp (b : BusState) : BusOp → BusState
  | .pubIn m => publishInbound b m
  | .pubOut m => publishOutbound b m
  | .stopOp => busStop b

/-- Run a sequence of bus operations from a starting state. -/
def runBusOps (b : BusState) : List BusOp → BusState
  | [] => b
  | op :: rest => runBusOps (applyBusOp b op) rest

/-- Whether an operation is a `stop()` call. -/
def BusOp.isStop : BusOp → Bool
  | .stopOp => true
  | _ => false

/-- Number of shutdown sentinels in the inbound queue. -/
def inSentinels (l : List InItem) : Nat := l.countP (· = InItem.sentinel)

/-- Number of shutdown sentinels in the outbound queue. -/
def outSentinels (l : List OutItem) : Nat := l.countP (· = OutItem.sentinel)

/-! ## Subscriber notification (`MessageBus.notify_subscribers`) -/

/-- An outbound message as delivered to channel subscribers. -/
structure OutboundMsg where
  channel : String
  chatId : String
  content : String
deriving Repr, DecidableEq

/-- A subscriber callback: either returns unit or raises (modelled as
`Except` with the exception text). -/
def Sink : Type := OutboundMsg → Except String Unit

/-- Core of `notify_subscribers`: walk the subscriber list, invoking every
callback; on a raising callback, dead-letter the message unless the
`dead_lettered` flag is already set.  Returns the messages appended to the
dead-letter queue and the number of callbacks invoked. -/
def notifyAux (msg : OutboundMsg) : List Sink → Bool → List OutboundMsg × Nat
  | [], _ => ([], 0)
  | cb :: rest, deadLettered =>
    match cb msg with
    | .ok _ =>
      let (ds, n) := notifyAux msg rest deadLettered
      (ds, n + 1)
    | .error _ =>
      if deadLettered then
        let (ds, n) := notifyAux msg rest true
        (ds, n + 1)
      else
        let (ds, n) := notifyAux msg rest true
        (msg :: ds, n + 1)

/-- `MessageBus.notify_subscribers` for the subscribers of the message's
channel: returns the dead-letter additions and the number of callbacks
invoked. -/
def notifySubscribers (subs : List Sink) (msg : OutboundMsg) :
    List OutboundMsg × Nat :=
  notifyAux msg subs false

/-- Whether a callback raises on this message. -/
def sinkFails (msg : OutboundMsg) (cb : Sink) : Bool :=
  match cb msg with
  | .ok _ => false
  | .error _ => true

/-! ## Safety detector (`nanobot/agent/safety.py`)

### Path resolution

`OscillationDetector.normalize_args` resolves relative `./`/`../`
references inside a command string against the workspace root using
`pathlib`.  `Path.resolve` is modelled for a symlink-free filesystem and an
absolute workspace root: join, then lexically eliminate empty, `.` and
`..` segments. -/

/-- Split a character list on `/` (the separator-preserving split that
underlies POSIX path parsing; always returns at least one segment). -/
def splitSlash : List Char → List (List Char)
  | [] => [[]]
  | c :: r =>
    let rest := splitSlash r
    if c = '/' then [] :: rest
    else (c :: rest.headD []) :: rest.tail

/-- Lexical segment normalization of an absolute path: drop empty and `.`
segments, pop a segment on `..` (at the root, `..` stays at the root).
The accumulator holds already-kept segments in reverse. -/
def normSegsAux : List (List Char) → List (List Char) → List (List Char)
  | acc, [] => acc.reverse
  | acc, seg :: rest =>
    if seg = [] ∨ seg = ['.'] then normSegsAux acc rest
    else if seg = ['.', '.'] then normSegsAux (acc.drop 1) rest
    else normSegsAux (seg :: acc) rest

/-- Join segments with `/` separators. -/
def joinSegs : List (List Char) → List Char
  | [] => []
  | [s] => s
  | s :: rest => s ++ '/' :: joinSegs rest

/-- Render an absolute path from its segments. -/
def canonPath (segs : List (List Char)) : List Char := '/' :: joinSegs segs

/-- A well-formed workspace-root path segment: nonempty, containing
neither a slash nor a dot. -/
def goodSeg (s : List Char) : Bool :=
  !s.isEmpty && s.all (fun c => c ≠ '/' && c ≠ '.')

/-- A well-formed absolute workspace root, given by its nonempty list of
segments (`canonPath segs`): a normalized POSIX path such as `/tmp/ws`. -/
def goodSegs (segs : List (List Char)) : Bool :=
  !segs.isEmpty && segs.all goodSeg

/-- `str((root / p).resolve())` for an absolute workspace root on a
symlink-free filesystem: `pathlib` join (an absolute right side wins),
then lexical normalization. -/
def resolvePath (root p : List Char) : List Char :=
  let joined := if p.headD ' ' = '/' then p else root ++ '/' :: p
  canonPath (normSegsAux [] (splitSlash joined))

/-! ### The relative-reference rewrite (`re.sub(r"\.{1,2}/[^\s]+", resolve, cmd)`) -/

/-- Attempt to match the regex `\.{1,2}/[^\s]+` at the head of the list:
one or two dots (greedy, with backtracking), a slash, then a maximal
nonempty run of non-whitespace.  Returns the matched text and the rest. -/
def tryMatch (l : List Char) : Option (List Char × List Char) :=
  match l with
  | c1 :: c2 :: rest =>
    if c1 = '.' then
      if c2 = '.' then
        match rest with
        | c3 :: rest2 =>
          if c3 = '/' then
            let tk := rest2.takeWhile (fun c => !isPySpace c)
            if tk = [] then none
            else some ('.' :: '.' :: '/' :: tk, rest2.dropWhile (fun c => !isPySpace c))
          else none
        | [] => none
      else if c2 = '/' then
        let tk := rest.takeWhile (fun c => !isPySpace c)
        if tk = [] then none
        else some ('.' :: '/' :: tk, rest.dropWhile (fun c => !isPySpace c))
      else none
    else none
  | _ => none

/-- Fuelled left-to-right global substitution of the relative-reference
pattern, replacing each match `m` by `str((root / m).resolve())`. -/
def subDotsF (root : List Char) : Nat → List Char → List Char
  | 0, l => l
  | _ + 1, [] => []
  | fuel + 1, c :: r =>
    match tryMatch (c :: r) with
    | some (m, rm) => resolvePath root m ++ subDotsF root fuel rm
    | none => c :: subDotsF root fuel r

/-- `re.sub(r"\.{1,2}/[^\s]+", resolve, cmd)`: each match is a matched
prefix of the remaining input, so `length` fuel suffices. -/
def subDots (root l : List Char) : List Char := subDotsF root l.length l

/-! ### The remaining command normalization steps -/

/-- `resolved.replace("\\", "/")`. -/
def backslashToSlash (l : List Char) : List Char :=
  l.map (fun c => if c = '\\' then '/' else c)

/-- Fuelled scan for `re.sub(r"(?i)[A-Za-z]:/", "/", resolved)`. -/
def dropDriveLettersF : Nat → List Char → List Char
  | 0, l => l
  | _ + 1, [] => []
  | _ + 1, [a] => [a]
  | _ + 1, [a, b] => [a, b]
  | fuel + 1, a :: b :: c :: rest =>
    if a.isAlpha && b = ':' && c = '/' then '/' :: dropDriveLettersF fuel rest
    else a :: dropDriveLettersF fuel (b :: c :: rest)

/-- `re.sub(r"(?i)[A-Za-z]:/", "/", resolved)`: drop Windows drive
letters (each scan step consumes at least one character, so `length` fuel
suffices). -/
def dropDriveLetters (l : List Char) : List Char := dropDriveLettersF l.length l

/-- Fuelled scan for `re.sub(r"/{2,}", "/", resolved)`. -/
def collapseSlashesF : Nat → List Char → List Char
  | 0, l => l
  | _ + 1, [] => []
  | fuel + 1, c :: rest =>
    if c = '/' then '/' :: collapseSlashesF fuel (rest.dropWhile (fun x => x = '/'))
    else c :: collapseSlashesF fuel rest

/-- `re.sub(r"/{2,}", "/", resolved)`: collapse duplicate slashes (each
scan step consumes at least one character, so `length` fuel suffices). -/
def collapseSlashes (l : List Char) : List Char := collapseSlashesF l.length l

/-! ### JSON encoding (`json.dumps(normalized, sort_keys=True)`) -/

/-- Lexicographic comparison of strings by character code (Python string
ordering on the modelled fragment). -/
def charListLe : List Char → List Char → Bool
  | [], _ => true
  | _ :: _, [] => false
  | a :: as_, b :: bs =>
    if a = b then charListLe as_ bs else decide (a.val < b.val)

/-- `sorted` on dictionary keys. -/
def strLe (a b : String) : Bool := charListLe a.data b.data

/-- Insert a field into a key-sorted field list. -/
def insertByKey (p : String × JVal) : List (String × JVal) → List (String × JVal)
  | [] => [p]
  | q :: rest => if strLe p.1 q.1 then p :: q :: rest else q :: insertByKey p rest

/-- Sort object fields by key. -/
def sortFields : List (String × JVal) → List (String × JVal)
  | [] => []
  | p :: rest => insertByKey p (sortFields rest)

mutual

/-- Recursively sort every object's fields by key (the effect of
`sort_keys=True` at every nesting level). -/
def sortJVal : JVal → JVal
  | .null => .null
  | .bool b => .bool b
  | .int n => .int n
  | .str s => .str s
  | .arr l => .arr (sortJList l)
  | .obj f => .obj (sortFields (sortJFields f))

/-- Pointwise `sortJVal` over array elements. -/
def sortJList : List JVal → List JVal
  | [] => []
  | v :: r => sortJVal v :: sortJList r

/-- Pointwise `sortJVal` over object field values. -/
def sortJFields : List (String × JVal) → List (String × JVal)
  | [] => []
  | (k, v) :: r => (k, sortJVal v) :: sortJFields r

end

/-- JSON string escaping (ASCII fragment of `json.dumps`). -/
def jsonEscapeChar (c : Char) : String :=
  if c = '"' then "\\\""
  else if c = '\\' then "\\\\"
  else if c = '\n' then "\\n"
  else if c = '\t' then "\\t"
  else if c = '\x0d' then "\\r"
  else String.singleton c

/-- A JSON string literal. -/
def jsonQuote (s : String) : String :=
  "\"" ++ String.join (s.data.map jsonEscapeChar) ++ "\""

mutual

/-- Render a (pre-sorted) JSON value in `json.dumps` format with the
default separators. -/
def jsonRender : JVal → String
  | .null => "null"
  | .bool b => if b then "true" else "false"
  | .int n => toString n
  | .str s => jsonQuote s
  | .arr l => "[" ++ jsonRenderList l ++ "]"
  | .obj f => "\x7b" ++ jsonRenderFields f ++ "\x7d"

/-- Render array elements, comma-separated. -/
def jsonRenderList : List JVal → String
  | [] => ""
  | [v] => jsonRender v
  | v :: rest => jsonRender v ++ ", " ++ jsonRenderList rest

/-- Render object fields, comma-separated. -/
def jsonRenderFields : List (String × JVal) → String
  | [] => ""
  | [(k, v)] => jsonQuote k ++ ": " ++ jsonRender v
  | (k, v) :: rest => jsonQuote k ++ ": " ++ jsonRender v ++ ", " ++ jsonRenderFields rest

end

/-- `json.dumps(fields, sort_keys=True)`. -/
def jsonDumps (fields : List (String × JVal)) : String :=
  jsonRender (sortJVal (.obj fields))

/-- Replace the value bound to a key (`normalized["command"] = resolved`). -/
def setKey (key : String) (v : JVal) : List (String × JVal) → List (String × JVal)
  | [] => []
  | (k, w) :: rest =>
    if k = key then (k, v) :: rest else (k, w) :: setKey key v rest

/-! ### `OscillationDetector.normalize_args` -/

/-- `OscillationDetector.normalize_args`: for the `exec` tool, rewrite
relative path references in the command to their resolved absolute form,
normalize separators, drop drive letters and collapse duplicate slashes;
then JSON-encode the arguments with sorted keys.  (Python raises a
`TypeError` when an `exec` call carries a non-string `command`; that case
is outside this model and excluded by `argsNormalizable` where it
matters.) -/
def normalizeArgs (root : List Char) (toolName : String)
    (args : List (String × JVal)) : String :=
  let normalized :=
    if toolName = "exec" then
      match lookupKey "command" args with
      | some (JVal.str cmd) =>
        let resolved := subDots root cmd.data
        let resolved := backslashToSlash resolved
        let resolved := dropDriveLetters resolved
        let resolved := collapseSlashes resolved
        setKey "command" (JVal.str (String.mk resolved)) args
      | _ => args
    else args
  jsonDumps normalized

/-- The arguments do not trigger the `TypeError` path of
`normalize_args` (an `exec` call whose `command` value is present but not
a string). -/
def argsNormalizable (toolName : String) (args : List (String × JVal)) : Bool :=
  toolName != "exec" ||
    (match lookupKey "command" args with
     | some (JVal.str _) => true
     | none => true
     | some _ => false)

/-! ### Write classification -/

/-- Whitespace tokenization: maximal runs of non-whitespace characters.
The accumulator holds the current token in reverse. -/
def wsSplitAux : List Char → List Char → List (List Char)
  | [], cur => if cur.isEmpty then [] else [cur.reverse]
  | c :: r, cur =>
    if isPySpace c then
      if cur.isEmpty then wsSplitAux r [] else cur.reverse :: wsSplitAux r []
    else wsSplitAux r (c :: cur)

/-- `str.split()` (whitespace splitting, empty tokens dropped). -/
def wsSplit (s : String) : List String :=
  (wsSplitAux s.data []).map String.mk

/-- `shlex.split`, modelled as whitespace splitting.  The source uses
POSIX shell lexing; for commands without quoting the two agree, and no
checked property exercises quoted commands. -/
def shlexSplit (s : String) : List String := wsSplit s

/-- `str.lower()` (character-wise). -/
def pyToLower (s : String) : String := String.mk (s.data.map Char.toLower)

/-- `"-".startswith` style prefix test on strings. -/
def strStarts (prefixStr s : String) : Bool := prefixStr.data.isPrefixOf s.data

/-- `" ".join(tokens)`. -/
def strJoinSpace : List String → String
  | [] => ""
  | [s] => s
  | s :: rest => s ++ " " ++ strJoinSpace rest

/-- `OscillationDetector.write_tools`. -/
def writeTools : List String := ["write_file", "edit_file", "mkdir", "update_plan"]

/-- `OscillationDetector.write_cmds`. -/
def writeCmds : List String :=
  ["touch", "mv", "cp", "rm", "mkdir", "git", "npm i", "pip install"]

/-- `self._write_cmd_patterns = [cmd.lower().split() for cmd in self.write_cmds]`. -/
def writeCmdPatterns : List (List String) :=
  writeCmds.map (fun c => wsSplit (pyToLower c))

/-- `write_cmd_first = {cmd.split()[0] for cmd in self.write_cmds}`. -/
def writeCmdFirst : List String :=
  writeCmds.map (fun c => (wsSplit c).headD "")

/-- Skip `env`'s flags and variable assignments
(the inner `while` loop of `_extract_command_tokens`). -/
def dropEnvFlags : List String → List String
  | [] => []
  | c :: rest =>
    if strStarts "-" c || c.data.contains '=' then dropEnvFlags rest
    else c :: rest

/-- Substring test (`needle in haystack` on Python strings). -/
def listIsInfix (needle : List Char) : List Char → Bool
  | [] => needle.isEmpty
  | c :: t => needle.isPrefixOf (c :: t) || listIsInfix needle t

/-- Substring test on strings. -/
def strIn (needle hay : String) : Bool := listIsInfix needle.data hay.data

/-- The post-loop step of `_extract_command_tokens`: a single
space-containing token is re-split; tokens are lowercased. -/
def finishTokens (filtered : List String) : List String :=
  match filtered with
  | [single] =>
    if single.data.contains ' ' then (shlexSplit single).map pyToLower
    else [pyToLower single]
  | other => other.map pyToLower

/-- Fuelled port of the `while` loop of
`OscillationDetector._extract_command_tokens` (each iteration consumes at
least one token, so `length` fuel suffices). -/
def extractCommandTokensF : Nat → List String → List String
  | 0, toks => finishTokens toks
  | _ + 1, [] => []
  | fuel + 1, tok :: rest =>
    let lower := pyToLower tok
    if tok.data.contains '=' && !strStarts "-" tok then
      extractCommandTokensF fuel rest
    else if lower = "sudo" || lower = "doas" || lower = "command" then
      extractCommandTokensF fuel rest
    else if lower = "env" then
      extractCommandTokensF fuel (dropEnvFlags rest)
    else if strStarts "python" lower || lower = "pythonw" || lower = "pypy" then
      match rest with
      | [] => [lower]
      | flag :: after =>
        if flag = "-m" then after.map pyToLower
        else if flag = "-c" || flag = "-lc" then
          (shlexSplit (strJoinSpace after)).map pyToLower
        else (tok :: rest).map pyToLower
    else if lower = "sh" || lower = "bash" || lower = "zsh" || lower = "ksh" then
      match rest with
      | [] => [lower]
      | nxt :: after =>
        if pyToLower nxt = "-c" || pyToLower nxt = "-lc" then
          (shlexSplit (strJoinSpace after)).map pyToLower
        else (tok :: rest).map pyToLower
    else
      finishTokens (tok :: rest)

/-- `OscillationDetector._extract_command_tokens`: strip leading
environment-variable assignments, privilege wrappers and shell or
interpreter indirection, returning lowercase tokens. -/
def extractCommandTokens (tokens : List String) : List String :=
  extractCommandTokensF tokens.length tokens

/-- The exec-command write test of `OscillationDetector.check`: tokenize,
unwrap wrappers, compare against the write-command patterns; fall back to
a substring scan for write verbs used as path components or infix
words. -/
def execCommandIsWrite (cmd : String) : Bool :=
  let tokens := shlexSplit cmd
  let normalizedTokens := extractCommandTokens tokens
  let patternHit := writeCmdPatterns.any (fun pat =>
    decide (pat.length ≤ normalizedTokens.length) &&
      normalizedTokens.take pat.length == pat)
  if patternHit then true
  else
    let lowered := String.mk (backslashToSlash (pyToLower cmd).data)
    writeCmdFirst.any (fun base =>
      strIn (base ++ "/") lowered || strIn (" " ++ base ++ " ") lowered)

/-- Step 1 of `OscillationDetector.check`: classify the action as
state-changing. -/
def isWriteAction (toolName : String) (args : List (String × JVal)) : Bool :=
  writeTools.contains toolName || writeCmdFirst.contains toolName ||
    (toolName == "exec" &&
      match lookupKey "command" args with
      | some (JVal.str cmd) => execCommandIsWrite cmd
      | _ => false)

/-! ### The detector state machine -/

/-- State of one per-session `OscillationDetector`. -/
structure Detector where
  history : List String
  windowSize : Nat
  threshold : Nat
  justWrote : Bool
  workspaceRoot : List Char
deriving Repr, DecidableEq

/-- `OscillationDetector.__init__` (the loop constructs detectors with the
default `window_size=6`, `threshold=3`). -/
def mkDetector (root : List Char) (windowSize threshold : Nat) : Detector :=
  { history := [], windowSize := windowSize, threshold := threshold,
    justWrote := false, workspaceRoot := root }

/-- `deque(maxlen=n).append`: keep only the most recent `n` entries. -/
def pushWindow (maxlen : Nat) (l : List String) (s : String) : List String :=
  let l2 := l ++ [s]
  if l2.length ≤ maxlen then l2 else l2.drop (l2.length - maxlen)

/-- `list(history)[-threshold:]` (for `threshold = 0`, Python's `[-0:]`
slice is the whole list). -/
def lastSlice (l : List String) (t : Nat) : List String :=
  if t = 0 then l else l.drop (l.length - t)

/-- The structured refusal message returned on detection. -/
def oscillationAlert : String :=
  "STATUS: OSCILLATION DETECTED\n" ++
  "SYSTEM ALERT: You are checking the same state repeatedly without changing it.\n" ++
  "PROTOCOL: Perform a write action, change your query, or retry " ++
  "with force=true and a reason."

/-- `OscillationDetector.check`: classify; on a write, clear the window
and set the grace flag; otherwise append the normalized signature, apply
the post-write grace window, and flag an oscillation when the last
`threshold` entries all equal the new signature. -/
def checkStep (d : Detector) (toolName : String) (args : List (String × JVal)) :
    Detector × Option String :=
  if isWriteAction toolName args then
    ({ d with history := [], justWrote := true }, none)
  else
    let sig := toolName ++ ":" ++ normalizeArgs d.workspaceRoot toolName args
    let hist := pushWindow d.windowSize d.history sig
    if d.justWrote && decide (hist.length ≤ d.threshold) then
      ({ d with history := hist }, none)
    else
      let d2 : Detector := { d with history := hist, justWrote := false }
      if decide (d.threshold ≤ hist.length) &&
          (lastSlice hist d.threshold).all (fun e => e == sig) then
        (d2, some oscillationAlert)
      else (d2, none)

/-- The detector state after `n` identical read-only checks. -/
def iterCheck (toolName : String) (args : List (String × JVal)) :
    Detector → Nat → Detector
  | d, 0 => d
  | d, n + 1 => iterCheck toolName args (checkStep d toolName args).1 n

/-- The result of the `(n+1)`-th check in a run of identical checks. -/
def checkResultAt (toolName : String) (args : List (String × JVal))
    (d : Detector) (n : Nat) : Option String :=
  (checkStep (iterCheck toolName args d n) toolName args).2

/-! ## Parameter validation (`nanobot/agent/tools/base.py`)

A JSON-Schema node as the validator reads it: the `type` entry (a single
type name or a list of candidates), value constraints, object and array
structure, and the `anyOf`/`oneOf` combinator lists.  All entries may
coexist on one node, as in a Python dict.  The nested collections are
inlined as mutual inductives (`SProps`, `SItems`, `SList`) so that
recursion over schemas is structural. -/

/-- The `type` entry of a schema node. -/
inductive TyDecl where
  | single (t : String) : TyDecl
  | union (ts : List String) : TyDecl
deriving Repr, DecidableEq

mutual

/-- A schema node (a Python dict with the keys the validator reads). -/
inductive Schema where
  | mk (ty : Option TyDecl) (enum : Option (List JVal))
       (minimum maximum : Option Int) (minLength maxLength : Option Nat)
       (props : SProps) (required : List String) (items : SItems)
       (anyOf oneOf : SList) : Schema

/-- The `properties` table of a schema node. -/
inductive SProps where
  | nil : SProps
  | cons (key : String) (s : Schema) (rest : SProps) : SProps

/-- The optional `items` schema of a schema node. -/
inductive SItems where
  | none : SItems
  | some (s : Schema) : SItems

/-- A list of schema branches (`anyOf`/`oneOf`). -/
inductive SList where
  | nil : SList
  | cons (s : Schema) (rest : SList) : SList

end

/-- The `type` entry. -/
def Schema.ty : Schema → Option TyDecl
  | .mk t _ _ _ _ _ _ _ _ _ _ => t

/-- The `enum` entry. -/
def Schema.enum : Schema → Option (List JVal)
  | .mk _ e _ _ _ _ _ _ _ _ _ => e

/-- The `minimum` entry. -/
def Schema.minimum : Schema → Option Int
  | .mk _ _ mn _ _ _ _ _ _ _ _ => mn

/-- The `maximum` entry. -/
def Schema.maximum : Schema → Option Int
  | .mk _ _ _ mx _ _ _ _ _ _ _ => mx

/-- The `minLength` entry. -/
def Schema.minLength : Schema → Option Nat
  | .mk _ _ _ _ ml _ _ _ _ _ _ => ml

/-- The `maxLength` entry. -/
def Schema.maxLength : Schema → Option Nat
  | .mk _ _ _ _ _ ml _ _ _ _ _ => ml

/-- The `properties` entry. -/
def Schema.props : Schema → SProps
  | .mk _ _ _ _ _ _ p _ _ _ _ => p

/-- The `required` entry. -/
def Schema.required : Schema → List String
  | .mk _ _ _ _ _ _ _ r _ _ _ => r

/-- The `items` entry. -/
def Schema.items : Schema → SItems
  | .mk _ _ _ _ _ _ _ _ i _ _ => i

/-- The `anyOf` entry. -/
def Schema.anyOf : Schema → SList
  | .mk _ _ _ _ _ _ _ _ _ a _ => a

/-- The `oneOf` entry. -/
def Schema.oneOf : Schema → SList
  | .mk _ _ _ _ _ _ _ _ _ _ o => o

/-- `{**schema, "type": t}`. -/
def setTy (s : Schema) (t : Option TyDecl) : Schema :=
  match s with
  | .mk _ e mn mx ml mxl p r i a o => .mk t e mn mx ml mxl p r i a o

/-- The schema node with no entries (an empty dict). -/
def emptySchema : Schema :=
  .mk Option.none Option.none Option.none Option.none Option.none Option.none
    SProps.nil [] SItems.none SList.nil SList.nil

/-- `properties.get(key)`. -/
def lookupProp (key : String) : SProps → Option Schema
  | .nil => Option.none
  | .cons k s rest => if k = key then Option.some s else lookupProp key rest

/-- Length of a branch list. -/
def SList.length : SList → Nat
  | .nil => 0
  | .cons _ rest => rest.length + 1

/-- The names in `Tool._TYPE_MAP`. -/
def typeKnown (t : String) : Bool :=
  t = "string" || t = "integer" || t = "number" || t = "boolean" ||
  t = "array" || t = "object" || t = "null"

/-- `isinstance(val, _TYPE_MAP[t])`.  As in Python, a `bool` is an
instance of `int`, so it matches `integer`/`number` here; the validator
rejects that case with a dedicated guard before this check. -/
def typeMatches (t : String) (v : JVal) : Bool :=
  match v with
  | .str _ => t = "string"
  | .int _ => t = "integer" || t = "number"
  | .bool _ => t = "boolean" || t = "integer" || t = "number"
  | .arr _ => t = "array"
  | .obj _ => t = "object"
  | .null => t = "null"

/-- Whether the value is a Python `bool`. -/
def JVal.isBool : JVal → Bool
  | .bool _ => true
  | _ => false

/-- The numeric value of an `int` (used for bound checks, which are only
reached on values that passed the `integer`/`number` type check and the
bool guard). -/
def JVal.asInt : JVal → Int
  | .int n => n
  | .bool b => if b then 1 else 0
  | _ => 0

mutual

/-- Python `repr` of a modelled value (as interpolated into the `enum`
error message). -/
def pyRepr : JVal → String
  | .null => "None"
  | .bool b => if b then "True" else "False"
  | .int n => toString n
  | .str s => "\x27" ++ s ++ "\x27"
  | .arr l => "[" ++ pyReprList l ++ "]"
  | .obj f => "\x7b" ++ pyReprFields f ++ "\x7d"

/-- `repr` of list elements, comma-separated. -/
def pyReprList : List JVal → String
  | [] => ""
  | [v] => pyRepr v
  | v :: rest => pyRepr v ++ ", " ++ pyReprList rest

/-- `repr` of dict items, comma-separated. -/
def pyReprFields : List (String × JVal) → String
  | [] => ""
  | [(k, v)] => "\x27" ++ k ++ "\x27: " ++ pyRepr v
  | (k, v) :: rest => "\x27" ++ k ++ "\x27: " ++ pyRepr v ++ ", " ++ pyReprFields rest

end

/-- `repr` of the raw `type` entry (for the `validate_params` error). -/
def pyReprTy : Option TyDecl → String
  | Option.none => "None"
  | Option.some (.single t) => "\x27" ++ t ++ "\x27"
  | Option.some (.union ts) =>
    "[" ++ String.intercalate ", " (ts.map (fun t => "\x27" ++ t ++ "\x27")) ++ "]"

/-- `path or "parameter"`. -/
def pathLabel (path : String) : String := if path = "" then "parameter" else path

/-- The child path `f"{path}.{key}" if path else key`. -/
def childPath (path key : String) : String :=
  if path = "" then key else path ++ "." ++ key

/-- The element path `f"{path}[{i}]" if path else f"[{i}]"`. -/
def elemPath (path : String) (i : Nat) : String :=
  path ++ "[" ++ toString i ++ "]"

/-- The bool guard of `_validate`: booleans are never accepted where
`integer`/`number` is declared. -/
def boolGuardBad (ty : Option String) (v : JVal) : Bool :=
  (ty = Option.some "integer" || ty = Option.some "number") && v.isBool

/-- The type check of `_validate`: fails when a known declared type does
not match the value. -/
def typeCheckBad (ty : Option String) (v : JVal) : Bool :=
  match ty with
  | Option.some t => typeKnown t && !typeMatches t v
  | Option.none => false

/-- The `enum` membership errors of `_validate`. -/
def enumBlock (v : JVal) (enum : Option (List JVal)) (label : String) :
    List String :=
  match enum with
  | Option.some es =>
    if es.any (fun e => jvalBeq v e) then []
    else [label ++ " must be one of [" ++ pyReprList es ++ "]"]
  | Option.none => []

/-- The numeric bound errors of `_validate` (only for `integer`/`number`). -/
def numBlock (ty : Option String) (v : JVal) (mn mx : Option Int)
    (label : String) : List String :=
  if ty = Option.some "integer" || ty = Option.some "number" then
    (match mn with
     | Option.some m =>
       if v.asInt < m then [label ++ " must be >= " ++ toString m] else []
     | Option.none => []) ++
    (match mx with
     | Option.some m =>
       if m < v.asInt then [label ++ " must be <= " ++ toString m] else []
     | Option.none => [])
  else []

/-- The string length errors of `_validate` (only when `string` is
declared and the value is a string, as in the source's
`schema_type == "string" and isinstance(val, str)`). -/
def strBlock (ty : Option String) (v : JVal) (mnl mxl : Option Nat)
    (label : String) : List String :=
  if ty = Option.some "string" then
    match v with
    | .str str =>
      (match mnl with
       | Option.some n =>
         if str.length < n then
           [label ++ " must be at least " ++ toString n ++ " chars"]
         else []
       | Option.none => []) ++
      (match mxl with
       | Option.some n =>
         if n < str.length then
           [label ++ " must be at most " ++ toString n ++ " chars"]
         else []
       | Option.none => [])
    | _ => []
  else []

/-- The `required`-key errors of `_validate`. -/
def requiredBlock (required : List String) (fields : List (String × JVal))
    (path : String) : List String :=
  required.filterMap (fun key =>
    if fields.any (fun f => f.1 == key) then Option.none
    else Option.some ("missing required " ++ childPath path key))

/-- Spec: every `required` key is present in the object. -/
def requiredOk (required : List String) (fields : List (String × JVal)) : Bool :=
  required.all (fun key => fields.any (fun f => f.1 == key))

/-- The object fields of a value, when it is an object. -/
def JVal.objFields : JVal → Option (List (String × JVal))
  | .obj fields => Option.some fields
  | _ => Option.none

/-- The elements of a value, when it is an array. -/
def JVal.arrElems : JVal → Option (List JVal)
  | .arr elems => Option.some elems
  | _ => Option.none

/-- Spec: `enum` membership. -/
def enumOkB (v : JVal) (enum : Option (List JVal)) : Bool :=
  match enum with
  | Option.some es => es.any (fun e => jvalBeq v e)
  | Option.none => true

/-- Spec: numeric bounds hold (only constrain `integer`/`number` types). -/
def numOkB (ty : Option String) (v : JVal) (mn mx : Option Int) : Bool :=
  if ty = Option.some "integer" || ty = Option.some "number" then
    (match mn with
     | Option.some m => !(v.asInt < m)
     | Option.none => true) &&
    (match mx with
     | Option.some m => !(m < v.asInt)
     | Option.none => true)
  else true

/-- Spec: string length bounds hold (only constrain string values of a
`string`-typed node). -/
def strOkB (ty : Option String) (v : JVal) (mnl mxl : Option Nat) : Bool :=
  if ty = Option.some "string" then
    match v with
    | .str str =>
      (match mnl with
       | Option.some n => !(str.length < n)
       | Option.none => true) &&
      (match mxl with
       | Option.some n => !(n < str.length)
       | Option.none => true)
    | _ => true
  else true

mutual

/-- `Tool._validate`: validate a value against a schema node, returning
the list of error strings (empty when valid). -/
def validateNode (v : JVal) (s : Schema) (path : String) : List String :=
  match s.ty with
  | Option.some (.union ts) => validateUnion v ts ts s path []
  | Option.some (.single t) => validateWith v (Option.some t) s path
  | Option.none => validateWith v Option.none s path
termination_by (sizeOf s, 3, 0)

/-- The union-type loop of `_validate`: try each candidate type on a copy
of the node; succeed on the first candidate with no errors, otherwise
report the union of allowed types followed by the first candidate's
failure. -/
def validateUnion (v : JVal) (allTs remaining : List String) (s : Schema)
    (path : String) (firstFail : List String) : List String :=
  match remaining with
  | [] =>
    (pathLabel path ++ " should match one of types: " ++
      String.intercalate ", " allTs) :: firstFail
  | t :: rest =>
    let es := validateWith v (Option.some t) s path
    if es = [] then []
    else validateUnion v allTs rest s path (if firstFail = [] then es else firstFail)
termination_by (sizeOf s, 2, remaining.length)

/-- The single-type body of `_validate` (everything after union-type
resolution): the bool guard, the type check with early return, then the
accumulated `enum`, bound, length, object, array, `anyOf` and `oneOf`
errors. -/
def validateWith (v : JVal) (ty : Option String) (s : Schema) (path : String) :
    List String :=
  let label := pathLabel path
  if boolGuardBad ty v then [label ++ " should be " ++ ty.getD ""]
  else if typeCheckBad ty v then [label ++ " should be " ++ ty.getD ""]
  else
    enumBlock v s.enum label ++
    numBlock ty v s.minimum s.maximum label ++
    strBlock ty v s.minLength s.maxLength label ++
    (if ty = Option.some "object" then
      validateFieldsOpt v.objFields s.required s.props path
    else []) ++
    (if ty = Option.some "array" then
      validateArrOpt v.arrElems s.items path
    else []) ++
    anyOfBlock v s.anyOf path label ++
    oneOfBlock v s.oneOf path label
termination_by (sizeOf s, 1, 0)
decreasing_by
  all_goals
    apply Prod.Lex.left
    cases s with
    | mk t0 e0 mn0 mx0 ml0 mxl0 p0 r0 i0 a0 o0 =>
      simp only [Schema.props, Schema.items, Schema.anyOf, Schema.oneOf,
        Schema.mk.sizeOf_spec]
      omega

/-- The object branch of `_validate` for an `object`-typed node: on an
object value, the missing-required errors followed by the recursion into
declared properties; on any other value, nothing. -/
def validateFieldsOpt (fieldsOpt : Option (List (String × JVal)))
    (required : List String) (props : SProps) (path : String) : List String :=
  match fieldsOpt with
  | Option.some fields => requiredBlock required fields path ++ validateFields fields props path
  | Option.none => []
termination_by (sizeOf props, 4, 0)

/-- The array branch of `_validate` for an `array`-typed node: on an array
value, the recursion into `items`; on any other value, nothing. -/
def validateArrOpt (elemsOpt : Option (List JVal)) (sitems : SItems)
    (path : String) : List String :=
  match elemsOpt with
  | Option.some elems => validateItemsOpt elems sitems path
  | Option.none => []
termination_by (sizeOf sitems, 4, 0)

/-- The object-property loop of `_validate`: recurse into `properties[key]`
for every present key that declares a child schema; unknown keys are
ignored. -/
def validateFields (fields : List (String × JVal)) (props : SProps)
    (path : String) : List String :=
  match fields with
  | [] => []
  | (k, value) :: rest =>
    validatePropHit k value props path ++ validateFields rest props path
termination_by (sizeOf props, 3, fields.length + 1)

/-- `properties.get(key)` followed by recursion into the child schema when
the key declares one (`if isinstance(child_schema, dict)`). -/
def validatePropHit (k : String) (value : JVal) (props : SProps)
    (path : String) : List String :=
  match props with
  | .nil => []
  | .cons pk cs prest =>
    if pk = k then validateNode value cs (childPath path k)
    else validatePropHit k value prest path
termination_by (sizeOf props, 2, 0)

/-- The array branch of `_validate`: recurse into `items` only when an
`items` schema is declared (`isinstance(schema.get("items"), dict)`). -/
def validateItemsOpt (elems : List JVal) (sitems : SItems) (path : String) :
    List String :=
  match sitems with
  | .none => []
  | .some isch => validateItems elems 0 isch path
termination_by (sizeOf sitems, 3, 0)

/-- The array-element loop of `_validate`: recurse into `items` for each
element. -/
def validateItems (elems : List JVal) (idx : Nat) (isch : Schema)
    (path : String) : List String :=
  match elems with
  | [] => []
  | e :: rest =>
    validateNode e isch (elemPath path idx) ++ validateItems rest (idx + 1) isch path
termination_by (sizeOf isch, 3, elems.length + 1)

/-- The `anyOf` branch of `_validate` (skipped when the list is absent or
empty, which are falsy in Python). -/
def anyOfBlock (v : JVal) (variants : SList) (path label : String) : List String :=
  match variants with
  | .nil => []
  | .cons b rest =>
    let (matched, msgs) := anyOfGo v (.cons b rest) path
    if matched then []
    else
      let detail := String.intercalate "; " (msgs.filter (fun m => m ≠ ""))
      let base := label ++ " did not match any allowed schema option (anyOf)"
      [if detail = "" then base else base ++ ": " ++ detail]
termination_by (sizeOf variants, 2, 0)

/-- The `anyOf` loop: stop at the first matching branch; otherwise collect
each branch's errors joined by commas. -/
def anyOfGo (v : JVal) (variants : SList) (path : String) : Bool × List String :=
  match variants with
  | .nil => (false, [])
  | .cons b rest =>
    let es := validateNode v b path
    if es = [] then (true, [])
    else
      let (matched, msgs) := anyOfGo v rest path
      (matched, String.intercalate ", " es :: msgs)
termination_by (sizeOf variants, 1, 0)

/-- The `oneOf` branch of `_validate` (skipped when the list is absent or
empty): exactly one matching branch is required; zero matches report a
no-match error, several matches report the ambiguity error. -/
def oneOfBlock (v : JVal) (variants : SList) (path label : String) : List String :=
  match variants with
  | .nil => []
  | .cons b rest =>
    let (cnt, msgs) := oneOfGo v (.cons b rest) path
    if cnt = 0 then
      let detail := String.intercalate "; " (msgs.filter (fun m => m ≠ ""))
      let base := label ++ " did not match any allowed schema option (oneOf)"
      [if detail = "" then base else base ++ ": " ++ detail]
    else if 1 < cnt then
      [label ++ " matches multiple schema options but oneOf expects exactly one"]
    else []
termination_by (sizeOf variants, 2, 0)

/-- The `oneOf` loop: count matching branches and collect the mismatching
branches' errors joined by commas. -/
def oneOfGo (v : JVal) (variants : SList) (path : String) : Nat × List String :=
  match variants with
  | .nil => (0, [])
  | .cons b rest =>
    let es := validateNode v b path
    let (cnt, msgs) := oneOfGo v rest path
    if es = [] then (cnt + 1, msgs)
    else (cnt, String.intercalate ", " es :: msgs)
termination_by (sizeOf variants, 1, 0)

end

/-- The number of branches of a `oneOf` list that the validator accepts
for a value (branches whose validation produces no errors). -/
def slCountValid (v : JVal) (variants : SList) (path : String) : Nat :=
  match variants with
  | .nil => 0
  | .cons b rest =>
    (if validateNode v b path = [] then 1 else 0) + slCountValid v rest path

/-! ### The specification-side satisfaction predicate

`SchemaSatisfies` is written from the specification's description of
validation (spec section 4.1): type membership (with the union rule and
the bool-is-not-a-number rule), `enum` membership, numeric and length
bounds, required keys present with declared keys recursing, array elements
recursing into `items`, `anyOf` at least one branch, `oneOf` exactly one
branch.  It is compared with the validator drawn from the source. -/

mutual

/-- Spec: a value satisfies a schema node. -/
def satisfiesNode (v : JVal) (s : Schema) : Bool :=
  match s.ty with
  | Option.some (.union ts) => satisfiesAnyTy v ts s
  | Option.some (.single t) => satisfiesWith v (Option.some t) s
  | Option.none => satisfiesWith v Option.none s
termination_by (sizeOf s, 3, 0)

/-- Spec: a union type is satisfied when some candidate type is. -/
def satisfiesAnyTy (v : JVal) (remaining : List String) (s : Schema) : Bool :=
  match remaining with
  | [] => false
  | t :: rest => satisfiesWith v (Option.some t) s || satisfiesAnyTy v rest s
termination_by (sizeOf s, 2, remaining.length)

/-- Spec: satisfaction under one resolved type: every constraint of the
node holds — the type matches (booleans never count as numbers), the value
is among `enum`, the numeric and length bounds hold, required keys are
present and declared keys recurse, array elements recurse into `items`, at
least one `anyOf` branch and exactly one `oneOf` branch hold. -/
def satisfiesWith (v : JVal) (ty : Option String) (s : Schema) : Bool :=
  !boolGuardBad ty v && !typeCheckBad ty v &&
  enumOkB v s.enum &&
  numOkB ty v s.minimum s.maximum &&
  strOkB ty v s.minLength s.maxLength &&
  (if ty = Option.some "object" then
    satisfiesFieldsOpt v.objFields s.required s.props
  else true) &&
  (if ty = Option.some "array" then
    satisfiesArrOpt v.arrElems s.items
  else true) &&
  satisfiesAnyBlock v s.anyOf &&
  satisfiesOneBlock v s.oneOf
termination_by (sizeOf s, 1, 0)
decreasing_by
  all_goals
    apply Prod.Lex.left
    cases s with
    | mk t0 e0 mn0 mx0 ml0 mxl0 p0 r0 i0 a0 o0 =>
      simp only [Schema.props, Schema.items, Schema.anyOf, Schema.oneOf,
        Schema.mk.sizeOf_spec]
      omega

/-- Spec: for an object value, all required keys are present and declared
keys recurse; a non-object value never reaches the object constraints. -/
def satisfiesFieldsOpt (fieldsOpt : Option (List (String × JVal)))
    (required : List String) (props : SProps) : Bool :=
  match fieldsOpt with
  | Option.some fields => requiredOk required fields && satisfiesFields fields props
  | Option.none => true
termination_by (sizeOf props, 4, 0)

/-- Spec: for an array value, elements recurse into `items`. -/
def satisfiesArrOpt (elemsOpt : Option (List JVal)) (sitems : SItems) : Bool :=
  match elemsOpt with
  | Option.some elems => satisfiesItemsOpt elems sitems
  | Option.none => true
termination_by (sizeOf sitems, 4, 0)

/-- Spec: every present key that declares a child schema satisfies it;
unknown keys are ignored. -/
def satisfiesFields (fields : List (String × JVal)) (props : SProps) : Bool :=
  match fields with
  | [] => true
  | (k, value) :: rest =>
    satisfiesPropHit k value props && satisfiesFields rest props
termination_by (sizeOf props, 3, fields.length + 1)

/-- Spec: satisfaction of the declared schema of one key, when any. -/
def satisfiesPropHit (k : String) (value : JVal) (props : SProps) : Bool :=
  match props with
  | .nil => true
  | .cons pk cs prest =>
    if pk = k then satisfiesNode value cs
    else satisfiesPropHit k value prest
termination_by (sizeOf props, 2, 0)

/-- Spec: array elements recurse into `items` when declared. -/
def satisfiesItemsOpt (elems : List JVal) (sitems : SItems) : Bool :=
  match sitems with
  | .none => true
  | .some isch => satisfiesItems elems isch
termination_by (sizeOf sitems, 3, 0)

/-- Spec: every array element satisfies the `items` schema. -/
def satisfiesItems (elems : List JVal) (isch : Schema) : Bool :=
  match elems with
  | [] => true
  | e :: rest => satisfiesNode e isch && satisfiesItems rest isch
termination_by (sizeOf isch, 3, elems.length + 1)

/-- Spec: the `anyOf` constraint (vacuous when absent or empty): at least
one branch is satisfied. -/
def satisfiesAnyBlock (v : JVal) (variants : SList) : Bool :=
  match variants with
  | .nil => true
  | .cons b rest => satisfiesAnySL v (.cons b rest)
termination_by (sizeOf variants, 2, 0)

/-- Spec: the `oneOf` constraint (vacuous when absent or empty): exactly
one branch is satisfied. -/
def satisfiesOneBlock (v : JVal) (variants : SList) : Bool :=
  match variants with
  | .nil => true
  | .cons b rest => decide (slCountSat v (.cons b rest) = 1)
termination_by (sizeOf variants, 2, 0)

/-- Spec: at least one `anyOf` branch is satisfied. -/
def satisfiesAnySL (v : JVal) (variants : SList) : Bool :=
  match variants with
  | .nil => false
  | .cons b rest => satisfiesNode v b || satisfiesAnySL v rest
termination_by (sizeOf variants, 1, 0)

/-- Spec: the number of `oneOf` branches the value satisfies. -/
def slCountSat (v : JVal) (variants : SList) : Nat :=
  match variants with
  | .nil => 0
  | .cons b rest => (if satisfiesNode v b then 1 else 0) + slCountSat v rest
termination_by (sizeOf variants, 1, 0)

end

/-! ### `Tool.validate_params` and `ToolRegistry.execute` -/

/-- `Tool.validate_params`: reject a non-object top-level schema type with
a `ValueError` (modelled as the `Except` error), then validate the
parameters against the schema with its type forced to `object`. -/
def validateParams (schema : Schema) (params : JVal) : Except String (List String) :=
  match schema.ty with
  | Option.some (TyDecl.single "object") =>
    .ok (validateNode params (setTy schema (Option.some (TyDecl.single "object"))) "")
  | Option.none =>
    .ok (validateNode params (setTy schema (Option.some (TyDecl.single "object"))) "")
  | other => .error ("Schema must be object type, got " ++ pyReprTy other)

/-- `ToolExecutionStatus`. -/
inductive ExecStatus where
  | success : ExecStatus
  | validationError : ExecStatus
  | toolNotFound : ExecStatus
  | executionError : ExecStatus
deriving Repr, DecidableEq

/-- `ToolExecutionResult`. -/
structure ExecResult where
  status : ExecStatus
  message : String
  errors : List String

/-- A raised Python exception: its type name and its `str(exc)` text. -/
structure PyExn where
  typeName : String
  message : String

/-- A registered tool as the registry sees it: its parameter schema and
its body, which returns a result string or raises. -/
structure ToolModel where
  schema : Schema
  body : JVal → Except PyExn String

/-- `self._tools.get(name)`. -/
def lookupTool (name : String) : List (String × ToolModel) → Option ToolModel
  | [] => Option.none
  | (k, t) :: rest => if k = name then Option.some t else lookupTool name rest

/-- The `STATUS_FAILED` marker of `tools/base.py`. -/
def STATUS_FAILED : String := "STATUS: FAILED"

/-- `ToolRegistry.execute`: look the tool up (`tool_not_found` when
absent), validate parameters (`validation_error` with the error strings
joined when any), run the body; any exception raised inside the `try`
block (including `validate_params`'s own `ValueError`) is converted to an
`execution_error` whose message interpolates `str(exc)`. -/
def registryExecute (reg : List (String × ToolModel)) (name : String)
    (params : JVal) : ExecResult :=
  match lookupTool name reg with
  | Option.none =>
    { status := .toolNotFound,
      message := STATUS_FAILED ++ "\nError: Tool \x27" ++ name ++ "\x27 not found.",
      errors := [] }
  | Option.some tool =>
    match validateParams tool.schema params with
    | .error m =>
      { status := .executionError,
        message := STATUS_FAILED ++ "\nError executing " ++ name ++ ": " ++ m,
        errors := [] }
    | .ok errs =>
      if errs = [] then
        match tool.body params with
        | .ok out => { status := .success, message := out, errors := [] }
        | .error e =>
          { status := .executionError,
            message := STATUS_FAILED ++ "\nError executing " ++ name ++ ": " ++
              e.message,
            errors := [] }
      else
        { status := .validationError,
          message := STATUS_FAILED ++ "\nInvalid parameters for tool \x27" ++
            name ++ "\x27: " ++ String.intercalate "; " errs,
          errors := errs }

/-! ## Intent routing (`nanobot/agent/router.py`, `nanobot/agent/loop.py`) -/

/-- The outcome of the provider interaction inside `classify_intent`,
abstracting the LLM call and JSON parsing: the provider is not a LiteLLM
provider, the call raises, the response has no content, the response fails
`RouteDecision` validation, or it parses to a decision with the given
`complexity_level`. -/
inductive ChatOutcome where
  | notLite : ChatOutcome
  | raises : ChatOutcome
  | emptyContent : ChatOutcome
  | invalidDecision : ChatOutcome
  | decision (complexityLevel : String) : ChatOutcome

/-- `classify_intent`: messages shorter than 15 characters with no space
are classified simple before any provider interaction; otherwise the
provider path runs, failing open (`True`, i.e. complex) on any internal
error.  Returns the classification and whether the provider was
consulted. -/
def classifyIntent (content : String) (outcome : ChatOutcome) : Bool × Bool :=
  if content.length < 15 && !content.data.contains ' ' then (false, false)
  else
    match outcome with
    | .notLite => (true, false)
    | .raises => (true, true)
    | .emptyContent => (true, true)
    | .invalidDecision => (true, true)
    | .decision lvl => (lvl == "complex", true)

/-- The routing fallback of `AgentLoop._process_message` (lines 266-274):
`is_direct` is the classifier's result, or `False` when the call raises;
the drafting phase runs only when `is_direct` is true.  Returns whether
drafting is entered. -/
def routeDraftEntered (classifierCall : Except String Bool) : Bool :=
  match classifierCall with
  | .ok isDirect => isDirect
  | .error _ => false

/-! ## The safety/force interceptor (`AgentLoop._process_message`) -/

/-- `reason` is a string whose stripped form has at least 10 characters
(the negation of `not isinstance(reason, str) or len(reason.strip()) < 10`). -/
def validForceReason : Option JVal → Bool
  | Option.some (.str s) => decide (10 ≤ (pyStrip s).length)
  | _ => false

/-- The fixed rejection recorded for an insufficiently justified `force`. -/
def forceRejectText : String :=
  "Error: \x27force\x27 requires a non-empty \x27reason\x27 explanation " ++
  "(min 10 characters). Request blocked."

/-- The escape-hatch hint appended to a safety rejection. -/
def escapeHatchText (safetyErr : String) : String :=
  safetyErr ++ "\n\n" ++
  "ESCAPE HATCH: Retry with \x27force\x27: true and a \x27reason\x27 " ++
  "if you are certain this is necessary."

/-- How the interceptor disposed of one tool call. -/
inductive InterceptDecision where
  | forceRejected : InterceptDecision
  | safetyRejected : InterceptDecision
  | executed : InterceptDecision
deriving Repr, DecidableEq

/-- The interceptor's effect: the disposition, the session's force-attempt
counter, the detector state after the mandatory `safety.check` call, and
the recorded rejection text when the call was blocked. -/
structure InterceptResult where
  decision : InterceptDecision
  forceAttempts : Nat
  detector : Detector
  rejectionText : Option String

/-- The safety/force interceptor of `AgentLoop._process_message` for a
non-`update_plan` tool call: read `force` (Python truthiness of
`args.get("force", False)`) and `reason`, run the oscillation check, then
reject insufficiently justified forced calls (incrementing the session's
force-attempt counter), reject safety-flagged unforced calls with the
detector's message plus the escape hatch, and otherwise fall through to
execution. -/
def safetyForceStep (d : Detector) (attempts : Nat) (toolName : String)
    (args : List (String × JVal)) : InterceptResult :=
  let isForced := (lookupKey "force" args).elim false JVal.truthy
  let reason := lookupKey "reason" args
  let checked := checkStep d toolName args
  if isForced && !validForceReason reason then
    { decision := .forceRejected, forceAttempts := attempts + 1,
      detector := checked.1, rejectionText := Option.some forceRejectText }
  else
    match checked.2 with
    | Option.some err =>
      if !isForced then
        { decision := .safetyRejected, forceAttempts := attempts,
          detector := checked.1, rejectionText := Option.some (escapeHatchText err) }
      else
        { decision := .executed, forceAttempts := attempts,
          detector := checked.1, rejectionText := Option.none }
    | Option.none =>
      { decision := .executed, forceAttempts := attempts,
        detector := checked.1, rejectionText := Option.none }

/-!
# Theorems

The checked properties, with their supporting lemmas.
-/

/-- `notify_subscribers` characterized: every callback is invoked, and the
dead-letter additions are the message once when some callback fails and
the flag was clear, nothing otherwise. -/
theorem notifyAux_spec (msg : OutboundMsg) (cbs : List Sink) (dl : Bool) :
    notifyAux msg cbs dl =
      ((if dl then [] else if cbs.any (sinkFails msg) then [msg] else []),
        cbs.length) := by
  induction cbs generalizing dl with
  | nil => cases dl <;> simp [notifyAux]
  | cons cb rest ih =>
    simp only [notifyAux]
    cases hcb : cb msg with
    | ok u =>
      have hf : sinkFails msg cb = false := by simp [sinkFails, hcb]
      cases dl <;> simp [ih, hf, List.any_cons]
    | error e =>
      have hf : sinkFails msg cb = true := by simp [sinkFails, hcb]
      cases dl <;> simp [ih, hf, List.any_cons]

/-- C5 (counterexample): with two subscribers that both raise, there are
two failed delivery attempts but the message is placed on the dead-letter
queue only once, refuting "exactly once per failed delivery attempt". -/
theorem c5_dead_letter_counterexample :
    let msg : OutboundMsg := { channel := "discord", chatId := "1", content := "hi" }
    let bad1 : Sink := fun _ => Except.error "boom one"
    let bad2 : Sink := fun _ => Except.error "boom two"
    ([bad1, bad2].countP (sinkFails msg) = 2) ∧
      (notifySubscribers [bad1, bad2] msg).1.length = 1 ∧
      (notifySubscribers [bad1, bad2] msg).1.length ≠ 2 := by
  refine ⟨rfl, rfl, by decide⟩

/-- C5 (amended): `notify_subscribers` invokes every subscriber of the
channel even when earlier callbacks raise, and places the message on the
dead-letter queue exactly once per delivery in which at least one
callback raised (not once per failed attempt). -/
theorem c5_dead_letter_once_per_message (cbs : List Sink) (msg : OutboundMsg) :
    (notifySubscribers cbs msg).2 = cbs.length ∧
      (notifySubscribers cbs msg).1 =
        (if cbs.any (sinkFails msg) then [msg] else []) := by
  rw [notifySubscribers, notifyAux_spec]
  simp

/-- C6: the orchestration loop's ROUTE step fails closed, not open: when
the classifier call raises, `is_direct` is set to `False`, and the
drafting phase — which runs only when `is_direct` is true — is skipped,
so the request is treated as simple.  The claim (and the spec) say an
error must lead to drafting ("needs planning"). -/
theorem c6_route_error_skips_drafting :
    routeDraftEntered (Except.error "classifier raised") = false := rfl

/-- C10: a message shorter than 15 characters containing no space is
classified simple by `classify_intent` before any provider interaction,
for every provider outcome, and therefore never reaches the drafting
phase. -/
theorem c10_short_single_token_is_simple (content : String)
    (outcome : ChatOutcome) (hlen : content.length < 15)
    (hsp : content.data.contains ' ' = false) :
    classifyIntent content outcome = (false, false) ∧
      routeDraftEntered (Except.ok (classifyIntent content outcome).1) = false := by
  have hsp2 : ' ' ∉ content.data := by simpa using hsp
  constructor
  · simp [classifyIntent, hlen, hsp2]
  · simp [classifyIntent, hlen, hsp2, routeDraftEntered]

/-- C10 (witness): the classifier result on the concrete message "ping". -/
theorem c10_short_single_token_is_simple_witness :
    ("ping".length < 15 ∧ "ping".data.contains ' ' = false) ∧
      (classifyIntent "ping" ChatOutcome.notLite = (false, false) ∧
        routeDraftEntered (Except.ok (classifyIntent "ping" ChatOutcome.notLite).1) =
          false) :=
  ⟨by decide, c10_short_single_token_is_simple "ping" ChatOutcome.notLite
    (by decide) (by decide)⟩

/-- The validator accepts the empty argument object against the empty
schema (used to drive registry fixtures through validation). -/

theorem validateParams_empty_ok :
    validateParams emptySchema (JVal.obj []) = Except.ok [] := by
  simp [validateParams, emptySchema, setTy, Schema.ty, validateNode, validateWith,
    Schema.enum, Schema.minimum, Schema.maximum, Schema.minLength, Schema.maxLength,
    Schema.props, Schema.required, Schema.items, Schema.anyOf, Schema.oneOf,
    boolGuardBad, typeCheckBad, typeKnown, typeMatches, JVal.isBool,
    enumBlock, numBlock, strBlock, validateFieldsOpt, validateArrOpt,
    requiredBlock, validateFields, validateItemsOpt, anyOfBlock, oneOfBlock,
    JVal.objFields, JVal.arrElems, pathLabel]

set_option maxRecDepth 8192 in
/-- C4 (counterexample): a tool body raising `ValueError("boom")` yields an
`execution_error` whose message interpolates the tool name and the bare
`str(exc)`; the exception's type name does not occur in it, and a
300-character exception message is carried in full, refuting "carries only
the exception's type name and a truncated message". -/
theorem c4_execution_error_counterexample :
    (registryExecute
        [("t", { schema := emptySchema,
                 body := fun _ => Except.error
                   { typeName := "ValueError", message := "boom" } })]
        "t" (JVal.obj [])).status = ExecStatus.executionError ∧
    (registryExecute
        [("t", { schema := emptySchema,
                 body := fun _ => Except.error
                   { typeName := "ValueError", message := "boom" } })]
        "t" (JVal.obj [])).message = "STATUS: FAILED\nError executing t: boom" ∧
    listIsInfix "ValueError".data
      (registryExecute
        [("t", { schema := emptySchema,
                 body := fun _ => Except.error
                   { typeName := "ValueError", message := "boom" } })]
        "t" (JVal.obj [])).message.data = false ∧
    (registryExecute
        [("t", { schema := emptySchema,
                 body := fun _ => Except.error
                   { typeName := "ValueError",
                     message := String.mk (List.replicate 300 'x') } })]
        "t" (JVal.obj [])).message =
      String.mk ("STATUS: FAILED\nError executing t: ".data ++
        List.replicate 300 'x') := by
  have h1 : registryExecute
      [("t", { schema := emptySchema,
               body := fun _ => Except.error
                 { typeName := "ValueError", message := "boom" } })]
      "t" (JVal.obj []) =
      { status := ExecStatus.executionError,
        message := "STATUS: FAILED\nError executing t: boom",
        errors := [] } := by
    simp [registryExecute, lookupTool, validateParams_empty_ok, STATUS_FAILED]
  have h2 : registryExecute
      [("t", { schema := emptySchema,
               body := fun _ => Except.error
                 { typeName := "ValueError",
                   message := String.mk (List.replicate 300 'x') } })]
      "t" (JVal.obj []) =
      { status := ExecStatus.executionError,
        message := STATUS_FAILED ++ "\nError executing t: " ++
          String.mk (List.replicate 300 'x'),
        errors := [] } := by
    simp [registryExecute, lookupTool, validateParams_empty_ok, STATUS_FAILED]
  refine ⟨by rw [h1], by rw [h1], by rw [h1]; decide, ?_⟩
  rw [h2]
  decide

/-- C4 (amended): `ToolRegistry.execute` returns `tool_not_found` with a
fixed message when no tool carries the name; `validation_error` with all
validation error strings joined by "; " when validation reports any; and
when the tool body raises, `execution_error` whose message carries the
tool name and the exception's `str` text verbatim (no stack trace, but
also no exception type name and no truncation) — in every case a result is
returned rather than an exception propagated. -/
theorem c4_registry_execute_amended (reg : List (String × ToolModel))
    (name : String) (params : JVal) :
    (lookupTool name reg = Option.none →
      registryExecute reg name params =
        { status := ExecStatus.toolNotFound,
          message := STATUS_FAILED ++ "\nError: Tool \x27" ++ name ++
            "\x27 not found.",
          errors := [] }) ∧
    (∀ tool errs, lookupTool name reg = Option.some tool →
      validateParams tool.schema params = Except.ok errs → errs ≠ [] →
      registryExecute reg name params =
        { status := ExecStatus.validationError,
          message := STATUS_FAILED ++ "\nInvalid parameters for tool \x27" ++
            name ++ "\x27: " ++ String.intercalate "; " errs,
          errors := errs }) ∧
    (∀ tool e, lookupTool name reg = Option.some tool →
      validateParams tool.schema params = Except.ok [] →
      tool.body params = Except.error e →
      registryExecute reg name params =
        { status := ExecStatus.executionError,
          message := STATUS_FAILED ++ "\nError executing " ++ name ++ ": " ++
            e.message,
          errors := [] }) := by
  refine ⟨?_, ?_, ?_⟩
  · intro h
    simp [registryExecute, h]
  · intro tool errs hl hv hne
    simp [registryExecute, hl, hv, hne]
  · intro tool e hl hv hb
    simp [registryExecute, hl, hv, hb]

/-- C4 (witness): the amended behaviour at a concrete registry whose one
tool raises `RuntimeError("kaput")`. -/
theorem c4_registry_execute_amended_witness :
    validateParams emptySchema (JVal.obj []) = Except.ok [] ∧
      registryExecute
        [("t", { schema := emptySchema,
                 body := fun _ =>
                   Except.error { typeName := "RuntimeError", message := "kaput" } })]
        "t" (JVal.obj []) =
        { status := ExecStatus.executionError,
          message := "STATUS: FAILED\nError executing t: kaput",
          errors := [] } := by
  refine ⟨validateParams_empty_ok, ?_⟩
  have h := (c4_registry_execute_amended
    [("t", { schema := emptySchema,
             body := fun _ =>
               Except.error { typeName := "RuntimeError", message := "kaput" } })]
    "t" (JVal.obj [])).2.2
    { schema := emptySchema,
      body := fun _ =>
        Except.error { typeName := "RuntimeError", message := "kaput" } }
    { typeName := "RuntimeError", message := "kaput" }
    (by simp [lookupTool]) validateParams_empty_ok rfl
  rw [h]
  rfl

/-- Appending a plain message does not change the inbound sentinel count. -/
theorem inSentinels_append_msg (l : List InItem) (m : String) :
    inSentinels (l ++ [InItem.msg m]) = inSentinels l := by
  simp [inSentinels, List.countP_append, List.countP_cons, List.countP_nil]

/-- Appending a plain message does not change the outbound sentinel count. -/
theorem outSentinels_append_msg (l : List OutItem) (m : String) :
    outSentinels (l ++ [OutItem.msg m]) = outSentinels l := by
  simp [outSentinels, List.countP_append, List.countP_cons, List.countP_nil]

/-- Appending the sentinel raises the inbound sentinel count by one. -/
theorem inSentinels_append_sentinel (l : List InItem) :
    inSentinels (l ++ [InItem.sentinel]) = inSentinels l + 1 := by
  simp [inSentinels, List.countP_append, List.countP_cons, List.countP_nil]

/-- Appending the sentinel raises the outbound sentinel count by one. -/
theorem outSentinels_append_sentinel (l : List OutItem) :
    outSentinels (l ++ [OutItem.sentinel]) = outSentinels l + 1 := by
  simp [outSentinels, List.countP_append, List.countP_cons, List.countP_nil]

/-- `stop()` leaves a shut-down inbound queue alone and appends exactly one
sentinel otherwise. -/
theorem busStop_inbound (b : BusState) :
    (busStop b).inbound =
      (if b.inShutdown then b.inbound else b.inbound ++ [InItem.sentinel]) := by
  by_cases hf : b.inShutdown <;> by_cases hg : b.outShutdown <;>
    simp [busStop, hf, hg]

/-- `stop()` leaves a shut-down outbound queue alone and appends exactly
one sentinel otherwise. -/
theorem busStop_outbound (b : BusState) :
    (busStop b).outbound =
      (if b.outShutdown then b.outbound else b.outbound ++ [OutItem.sentinel]) := by
  by_cases hf : b.inShutdown <;> by_cases hg : b.outShutdown <;>
    simp [busStop, hf, hg]

/-- `stop()` sets both shutdown flags. -/
theorem busStop_flags (b : BusState) :
    (busStop b).inShutdown = true ∧ (busStop b).outShutdown = true := by
  by_cases hf : b.inShutdown <;> by_cases hg : b.outShutdown <;>
    simp [busStop, hf, hg]

/-- The bus invariant: each queue holds a sentinel exactly when its
shutdown flag is set, and the flags are monotone: after running any
operation sequence they read `previous or (some stop occurred)`. -/
theorem runBusOps_invariant (ops : List BusOp) (b : BusState)
    (hin : inSentinels b.inbound = (if b.inShutdown then 1 else 0))
    (hout : outSentinels b.outbound = (if b.outShutdown then 1 else 0)) :
    inSentinels (runBusOps b ops).inbound =
      (if (runBusOps b ops).inShutdown then 1 else 0) ∧
    outSentinels (runBusOps b ops).outbound =
      (if (runBusOps b ops).outShutdown then 1 else 0) ∧
    (runBusOps b ops).inShutdown = (b.inShutdown || ops.any BusOp.isStop) ∧
    (runBusOps b ops).outShutdown = (b.outShutdown || ops.any BusOp.isStop) := by
  induction ops generalizing b with
  | nil => simp [runBusOps, hin, hout]
  | cons op rest ih =>
    cases op with
    | pubIn m =>
      by_cases hf : b.inShutdown
      · have := ih b hin hout
        simpa [runBusOps, applyBusOp, publishInbound, hf, BusOp.isStop] using this
      · have h1 : inSentinels (b.inbound ++ [InItem.msg m]) =
            (if b.inShutdown then 1 else 0) := by
          rw [inSentinels_append_msg, hin]
        have := ih { b with inbound := b.inbound ++ [InItem.msg m] } h1 hout
        simpa [runBusOps, applyBusOp, publishInbound, hf, BusOp.isStop] using this
    | pubOut m =>
      by_cases hf : b.outShutdown
      · have := ih b hin hout
        simpa [runBusOps, applyBusOp, publishOutbound, hf, BusOp.isStop] using this
      · have h1 : outSentinels (b.outbound ++ [OutItem.msg m]) =
            (if b.outShutdown then 1 else 0) := by
          rw [outSentinels_append_msg, hout]
        have := ih { b with outbound := b.outbound ++ [OutItem.msg m] } hin h1
        simpa [runBusOps, applyBusOp, publishOutbound, hf, BusOp.isStop] using this
    | stopOp =>
      have hfl := busStop_flags b
      have hin2 : inSentinels (busStop b).inbound =
          (if (busStop b).inShutdown then 1 else 0) := by
        rw [busStop_inbound, hfl.1]
        by_cases hf : b.inShutdown = true
        · rw [if_pos hf, hin, if_pos hf]
          simp
        · rw [if_neg hf, inSentinels_append_sentinel, hin, if_neg hf]
          simp
      have hout2 : outSentinels (busStop b).outbound =
          (if (busStop b).outShutdown then 1 else 0) := by
        rw [busStop_outbound, hfl.2]
        by_cases hg : b.outShutdown = true
        · rw [if_pos hg, hout, if_pos hg]
          simp
        · rw [if_neg hg, outSentinels_append_sentinel, hout, if_neg hg]
          simp
      have := ih (busStop b) hin2 hout2
      simp only [runBusOps, applyBusOp]
      refine ⟨this.1, this.2.1, ?_, ?_⟩
      · rw [this.2.2.1, hfl.1]
        simp [BusOp.isStop]
      · rw [this.2.2.2, hfl.2]
        simp [BusOp.isStop]

/-- `stop()` on a fully shut-down bus is the identity. -/
theorem busStop_of_flags (b : BusState) (h1 : b.inShutdown = true)
    (h2 : b.outShutdown = true) : busStop b = b := by
  simp [busStop, h1, h2]

/-- C7: `stop()` is idempotent; starting from a fresh bus, any operation
sequence leaves exactly one shutdown sentinel on each queue as soon as it
contains a `stop()` (and none before); `stop()` sets both shutdown flags;
and a publish on a shut-down side leaves the bus unchanged, so messages
published after `stop()` are dropped rather than delivered. -/
theorem c7_stop_idempotent_publish_noop :
    (∀ b : BusState, busStop (busStop b) = busStop b) ∧
    (∀ ops : List BusOp,
      inSentinels (runBusOps initBus ops).inbound =
        (if ops.any BusOp.isStop then 1 else 0) ∧
      outSentinels (runBusOps initBus ops).outbound =
        (if ops.any BusOp.isStop then 1 else 0)) ∧
    (∀ b : BusState, (busStop b).inShutdown = true ∧ (busStop b).outShutdown = true) ∧
    (∀ (b : BusState) (m : String), b.inShutdown = true → publishInbound b m = b) ∧
    (∀ (b : BusState) (m : String), b.outShutdown = true → publishOutbound b m = b) := by
  have hflags : ∀ b : BusState,
      (busStop b).inShutdown = true ∧ (busStop b).outShutdown = true := by
    intro b
    by_cases hf : b.inShutdown <;> by_cases hg : b.outShutdown <;>
      simp [busStop, hf, hg]
  refine ⟨?_, ?_, hflags, ?_, ?_⟩
  · intro b
    exact busStop_of_flags (busStop b) (hflags b).1 (hflags b).2
  · intro ops
    have := runBusOps_invariant ops initBus (by simp [initBus, inSentinels])
      (by simp [initBus, outSentinels])
    refine ⟨?_, ?_⟩
    · rw [this.1, this.2.2.1]
      simp [initBus]
    · rw [this.2.1, this.2.2.2]
      simp [initBus]
  · intro b m hb
    simp [publishInbound, hb]
  · intro b m hb
    simp [publishOutbound, hb]

/-- C7 (witness): idempotence and the publish no-op at the fresh bus. -/
theorem c7_stop_idempotent_publish_noop_witness :
    busStop (busStop initBus) = busStop initBus ∧
      publishInbound (busStop initBus) "late" = busStop initBus ∧
      inSentinels (runBusOps initBus
        [BusOp.stopOp, BusOp.stopOp, BusOp.pubIn "late"]).inbound = 1 := by
  refine ⟨c7_stop_idempotent_publish_noop.1 initBus,
    c7_stop_idempotent_publish_noop.2.2.2.1 (busStop initBus) "late"
      (c7_stop_idempotent_publish_noop.2.2.1 initBus).1, ?_⟩
  have := (c7_stop_idempotent_publish_noop.2.1
    [BusOp.stopOp, BusOp.stopOp, BusOp.pubIn "late"]).1
  simpa [BusOp.isStop] using this

set_option maxRecDepth 100000 in
/-- C2 (counterexample): a `force=true` call whose `reason` is the
10-character string `"a         "` (one letter and nine spaces) satisfies
the claim's "string of at least 10 characters", yet the interceptor
rejects it (the code thresholds the whitespace-stripped reason), so it
does not "always bypass a safety rejection and proceed to execution". -/
theorem c2_force_reason_counterexample :
    ("a         ".length = 10) ∧
      (safetyForceStep (mkDetector "/ws".data 6 3) 0 "read_file"
        [("force", JVal.bool true), ("reason", JVal.str "a         ")]).decision =
        InterceptDecision.forceRejected ∧
      (safetyForceStep (mkDetector "/ws".data 6 3) 0 "read_file"
        [("force", JVal.bool true), ("reason", JVal.str "a         ")]).decision ≠
        InterceptDecision.executed := by
  refine ⟨by decide, by decide, by decide⟩

/-- C2 (amended): for a non-`update_plan` tool call with a truthy `force`
argument, the interceptor rejects the call with the fixed error and
increments the session's force-attempt counter whenever `reason` is not a
string whose whitespace-stripped length is at least 10 — regardless of the
Safety Detector's verdict, since this holds for every detector state; and
when `reason` is a string whose stripped length is at least 10, the call
always proceeds to execution, bypassing any safety rejection. -/
theorem c2_force_interceptor_amended (d : Detector) (attempts : Nat)
    (toolName : String) (args : List (String × JVal))
    (htool : toolName ≠ "update_plan")
    (hforce : (lookupKey "force" args).elim false JVal.truthy = true) :
    (validForceReason (lookupKey "reason" args) = false →
      (safetyForceStep d attempts toolName args).decision =
          InterceptDecision.forceRejected ∧
        (safetyForceStep d attempts toolName args).forceAttempts = attempts + 1 ∧
        (safetyForceStep d attempts toolName args).rejectionText =
          Option.some forceRejectText) ∧
    (validForceReason (lookupKey "reason" args) = true →
      (safetyForceStep d attempts toolName args).decision =
          InterceptDecision.executed ∧
        (safetyForceStep d attempts toolName args).forceAttempts = attempts ∧
        (safetyForceStep d attempts toolName args).rejectionText = Option.none) := by
  constructor
  · intro hv
    simp [safetyForceStep, hforce, hv]
  · intro hv
    simp only [safetyForceStep, hforce, hv]
    cases hc : (checkStep d toolName args).2 with
    | none => simp [hc]
    | some err => simp [hc]

set_option maxRecDepth 100000 in
/-- C2 (witness): the amended behaviour at two concrete calls — a forced
call with no reason is rejected and counted, and a forced call with a
substantive reason executes. -/
theorem c2_force_interceptor_amended_witness :
    (("read_file" ≠ "update_plan") ∧
      (lookupKey "force" [("force", JVal.bool true)]).elim false JVal.truthy = true ∧
      validForceReason (lookupKey "reason" [("force", JVal.bool true)]) = false ∧
      (safetyForceStep (mkDetector "/ws".data 6 3) 0 "read_file"
        [("force", JVal.bool true)]).decision = InterceptDecision.forceRejected ∧
      (safetyForceStep (mkDetector "/ws".data 6 3) 0 "read_file"
        [("force", JVal.bool true)]).forceAttempts = 1) ∧
    ((lookupKey "force"
        [("force", JVal.bool true),
         ("reason", JVal.str "verifying the state change")]).elim false
        JVal.truthy = true ∧
      validForceReason (lookupKey "reason"
        [("force", JVal.bool true),
         ("reason", JVal.str "verifying the state change")]) = true ∧
      (safetyForceStep (mkDetector "/ws".data 6 3) 0 "read_file"
        [("force", JVal.bool true),
         ("reason", JVal.str "verifying the state change")]).decision =
        InterceptDecision.executed) := by
  have h1 := (c2_force_interceptor_amended (mkDetector "/ws".data 6 3) 0 "read_file"
    [("force", JVal.bool true)] (by decide) (by decide)).1 (by decide)
  have h2 := (c2_force_interceptor_amended (mkDetector "/ws".data 6 3) 0 "read_file"
    [("force", JVal.bool true), ("reason", JVal.str "verifying the state change")]
    (by decide) (by decide)).2 (by decide)
  exact ⟨⟨by decide, by decide, by decide, h1.1, h1.2.1⟩,
    ⟨by decide, by decide, h2.1⟩⟩

/-- Peeling one check off a run of identical checks. -/
theorem iterCheck_succ (t : String) (a : List (String × JVal)) (d : Detector)
    (n : Nat) :
    iterCheck t a d (n + 1) = iterCheck t a (checkStep d t a).1 n := rfl

/-- A write-classified action clears the window and raises the grace flag,
returning no refusal. -/
theorem checkStep_write (d : Detector) (t : String) (a : List (String × JVal))
    (hw : isWriteAction t a = true) :
    checkStep d t a = ({ d with history := [], justWrote := true }, none) := by
  simp [checkStep, hw]

/-- Appending one more identical signature keeps the window a replicate,
within the window bound. -/
theorem pushWindow_replicate (W k : Nat) (s : String) (hk : k + 1 ≤ W) :
    pushWindow W (List.replicate k s) s = List.replicate (k + 1) s := by
  simp only [pushWindow, ← List.replicate_succ', List.length_replicate]
  rw [if_pos hk]

/-- The last `threshold` entries of a uniform window all equal its
signature. -/
theorem lastSlice_replicate_all (n T : Nat) (s : String) :
    (lastSlice (List.replicate n s) T).all (fun e => e == s) = true := by
  unfold lastSlice
  split
  · simp [List.all_eq_true, List.mem_replicate]
  · rw [List.drop_replicate]
    simp [List.all_eq_true, List.mem_replicate]

/-- One identical read-only check on a uniform window without pending
grace: the window grows by one, and the refusal fires exactly when the
window has reached the threshold. -/
theorem checkStep_read_replicate (t : String) (a : List (String × JVal))
    (root : List Char) (W T k : Nat)
    (hw : isWriteAction t a = false) (hk : k + 1 ≤ W) :
    checkStep ⟨List.replicate k (t ++ ":" ++ normalizeArgs root t a), W, T,
        false, root⟩ t a =
      (⟨List.replicate (k + 1) (t ++ ":" ++ normalizeArgs root t a), W, T,
        false, root⟩,
        if T ≤ k + 1 then some oscillationAlert else none) := by
  simp only [checkStep, hw, Bool.false_eq_true, if_false,
    pushWindow_replicate W k _ hk, Bool.false_and, lastSlice_replicate_all,
    Bool.and_true, List.length_replicate]
  by_cases hTk : T ≤ k + 1
  · simp [hTk]
  · simp [hTk]

/-- One identical read-only check on a uniform window during the
post-write grace period: while the window has not outgrown the threshold,
no refusal fires and the grace flag is retained. -/
theorem checkStep_grace_le (t : String) (a : List (String × JVal))
    (root : List Char) (W T k : Nat)
    (hw : isWriteAction t a = false) (hk : k + 1 ≤ W) (hle : k + 1 ≤ T) :
    checkStep ⟨List.replicate k (t ++ ":" ++ normalizeArgs root t a), W, T,
        true, root⟩ t a =
      (⟨List.replicate (k + 1) (t ++ ":" ++ normalizeArgs root t a), W, T,
        true, root⟩, none) := by
  simp only [checkStep, hw, Bool.false_eq_true, if_false,
    pushWindow_replicate W k _ hk, List.length_replicate, Bool.true_and]
  rw [if_pos (decide_eq_true hle)]

/-- The first identical read-only check past the grace window clears the
flag and fires the refusal. -/
theorem checkStep_grace_gt (t : String) (a : List (String × JVal))
    (root : List Char) (W T k : Nat)
    (hw : isWriteAction t a = false) (hk : k + 1 ≤ W) (hgt : T < k + 1) :
    checkStep ⟨List.replicate k (t ++ ":" ++ normalizeArgs root t a), W, T,
        true, root⟩ t a =
      (⟨List.replicate (k + 1) (t ++ ":" ++ normalizeArgs root t a), W, T,
        false, root⟩, some oscillationAlert) := by
  simp only [checkStep, hw, Bool.false_eq_true, if_false,
    pushWindow_replicate W k _ hk, List.length_replicate, Bool.true_and,
    lastSlice_replicate_all, Bool.and_true]
  rw [if_neg (by simp; omega)]
  rw [if_pos (decide_eq_true (by omega))]

/-- A run of identical read-only checks without pending grace keeps the
window uniform, within the window bound. -/
theorem iterCheck_read_run (t : String) (a : List (String × JVal))
    (root : List Char) (W T : Nat) (hw : isWriteAction t a = false) :
    ∀ k j, j + k ≤ W →
      iterCheck t a ⟨List.replicate j (t ++ ":" ++ normalizeArgs root t a), W, T,
          false, root⟩ k =
        ⟨List.replicate (j + k) (t ++ ":" ++ normalizeArgs root t a), W, T,
          false, root⟩ := by
  intro k
  induction k with
  | zero => intro j h; simp [iterCheck]
  | succ k ih =>
    intro j h
    rw [iterCheck_succ, checkStep_read_replicate t a root W T j hw (by omega)]
    have := ih (j + 1) (by omega)
    simpa [Nat.add_assoc, Nat.add_comm 1 k] using this

/-- A run of identical read-only checks inside the grace window keeps the
window uniform and the grace flag set. -/
theorem iterCheck_grace_run (t : String) (a : List (String × JVal))
    (root : List Char) (W T : Nat) (hw : isWriteAction t a = false)
    (hTW : T < W) :
    ∀ k j, j + k ≤ T →
      iterCheck t a ⟨List.replicate j (t ++ ":" ++ normalizeArgs root t a), W, T,
          true, root⟩ k =
        ⟨List.replicate (j + k) (t ++ ":" ++ normalizeArgs root t a), W, T,
          true, root⟩ := by
  intro k
  induction k with
  | zero => intro j h; simp [iterCheck]
  | succ k ih =>
    intro j h
    rw [iterCheck_succ, checkStep_grace_le t a root W T j hw (by omega) (by omega)]
    have := ih (j + 1) (by omega)
    simpa [Nat.add_assoc, Nat.add_comm 1 k] using this

/-- C1 (amended): with threshold `T` (1 ≤ T < window size `W`), a fresh
per-session detector returns `None` for the first `T-1` identical
read-only checks and the structured refusal on the `T`-th; a
write-classified action anywhere clears the window and starts a grace
period, after which exactly `T+1` (not `T`) further identical read-only
checks are needed: the first `T` of them return `None` and the `(T+1)`-th
returns the refusal. -/
theorem c1_oscillation_threshold_amended (t : String)
    (a : List (String × JVal)) (wt : String) (wa : List (String × JVal))
    (root : List Char) (W T : Nat) (d : Detector)
    (hw : isWriteAction t a = false) (hww : isWriteAction wt wa = true)
    (hT : 1 ≤ T) (hTW : T < W) (hdW : d.windowSize = W) (hdT : d.threshold = T)
    (hdr : d.workspaceRoot = root) :
    (∀ i, i + 1 < T → checkResultAt t a (mkDetector root W T) i = none) ∧
    checkResultAt t a (mkDetector root W T) (T - 1) = some oscillationAlert ∧
    (∀ i, i < T → checkResultAt t a (checkStep d wt wa).1 i = none) ∧
    checkResultAt t a (checkStep d wt wa).1 T = some oscillationAlert := by
  have hfresh : mkDetector root W T =
      (⟨List.replicate 0 (t ++ ":" ++ normalizeArgs root t a), W, T,
        false, root⟩ : Detector) := by
    simp [mkDetector]
  have hwrite : (checkStep d wt wa).1 =
      (⟨List.replicate 0 (t ++ ":" ++ normalizeArgs root t a), W, T,
        true, root⟩ : Detector) := by
    rw [checkStep_write d wt wa hww]
    rcases d with ⟨dh, dw, dt, dj, dr⟩
    simp at hdW hdT hdr
    simp [hdW, hdT, hdr]
  refine ⟨?_, ?_, ?_, ?_⟩
  · intro i hi
    rw [checkResultAt, hfresh,
      iterCheck_read_run t a root W T hw i 0 (by omega)]
    rw [show (0 + i) = i by omega,
      checkStep_read_replicate t a root W T i hw (by omega)]
    simp
    omega
  · rw [checkResultAt, hfresh,
      iterCheck_read_run t a root W T hw (T - 1) 0 (by omega)]
    rw [show (0 + (T - 1)) = T - 1 by omega,
      checkStep_read_replicate t a root W T (T - 1) hw (by omega)]
    rw [if_pos (by omega)]
  · intro i hi
    rw [checkResultAt, hwrite,
      iterCheck_grace_run t a root W T hw hTW i 0 (by omega)]
    rw [show (0 + i) = i by omega,
      checkStep_grace_le t a root W T i hw (by omega) (by omega)]
  · rw [checkResultAt, hwrite,
      iterCheck_grace_run t a root W T hw hTW T 0 (by omega)]
    rw [show (0 + T) = T by omega,
      checkStep_grace_gt t a root W T T hw (by omega) (by omega)]

set_option maxRecDepth 100000 in
/-- C1 (witness): the amended behaviour at the default detector
(`window_size=6`, `threshold=3`) with read `ls {"path": "."}` and write
`touch`. -/
theorem c1_oscillation_threshold_amended_witness :
    (isWriteAction "ls" [("path", JVal.str ".")] = false ∧
      isWriteAction "touch" [] = true ∧ 1 ≤ 3 ∧ 3 < 6) ∧
    ((∀ i, i + 1 < 3 →
        checkResultAt "ls" [("path", JVal.str ".")]
          (mkDetector "/ws".data 6 3) i = none) ∧
      checkResultAt "ls" [("path", JVal.str ".")]
        (mkDetector "/ws".data 6 3) (3 - 1) = some oscillationAlert ∧
      (∀ i, i < 3 →
        checkResultAt "ls" [("path", JVal.str ".")]
          (checkStep (mkDetector "/ws".data 6 3) "touch" []).1 i = none) ∧
      checkResultAt "ls" [("path", JVal.str ".")]
        (checkStep (mkDetector "/ws".data 6 3) "touch" []).1 3 =
        some oscillationAlert) :=
  ⟨⟨by decide, by decide, by decide, by decide⟩,
    c1_oscillation_threshold_amended "ls" [("path", JVal.str ".")] "touch" []
      "/ws".data 6 3 (mkDetector "/ws".data 6 3) (by decide) (by decide)
      (by decide) (by decide) rfl rfl rfl⟩

set_option maxRecDepth 400000 in
/-- C1 (counterexample): after a write, three identical read-only checks
(the claimed threshold `T = 3`) do not suffice — the third still returns
`None`; the refusal only appears on the fourth, because the detector
suppresses detection until the post-write window exceeds the threshold. -/
theorem c1_post_write_counterexample :
    checkResultAt "ls" [("path", JVal.str ".")]
      (checkStep (mkDetector "/ws".data 6 3) "touch" []).1 2 = none ∧
    checkResultAt "ls" [("path", JVal.str ".")]
      (checkStep (mkDetector "/ws".data 6 3) "touch" []).1 3 =
      some oscillationAlert := by
  refine ⟨by decide, by decide⟩

/-- The no-match message, with or without its detail suffix, begins with
its base text. -/
theorem prefix_mem_single (base detail : String) :
    ∃ m ∈ [if detail = "" then base else base ++ ": " ++ detail],
      base.data.isPrefixOf m.data = true := by
  refine ⟨_, List.mem_singleton_self _, ?_⟩
  split
  · simp [List.isPrefixOf_iff_prefix]
  · simp only [String.data_append]
    simp [List.isPrefixOf_iff_prefix, List.append_assoc, List.prefix_append]

/-- The match count maintained by the `oneOf` loop is the number of
branches the validator accepts. -/
theorem oneOfGo_count (v : JVal) (variants : SList) (path : String) :
    (oneOfGo v variants path).1 = slCountValid v variants path := by
  match variants with
  | .nil => simp [oneOfGo, slCountValid]
  | .cons b rest =>
    have ih := oneOfGo_count v rest path
    rcases hgo : oneOfGo v rest path with ⟨cnt, msgs⟩
    rw [hgo] at ih
    by_cases h : validateNode v b path = [] <;>
      simp [oneOfGo, slCountValid, hgo, h, ih] <;> omega
termination_by sizeOf variants

/-- A node without a `type` entry validates to exactly its `enum`, `anyOf`
and `oneOf` errors. -/
theorem validateNode_tyNone (v : JVal) (s : Schema) (path : String)
    (hty : s.ty = Option.none) :
    validateNode v s path =
      enumBlock v s.enum (pathLabel path) ++
        anyOfBlock v s.anyOf path (pathLabel path) ++
        oneOfBlock v s.oneOf path (pathLabel path) := by
  rw [validateNode]
  rw [hty]
  rw [validateWith]
  simp [boolGuardBad, typeCheckBad, numBlock, strBlock]

/-- C8: for a schema node carrying a nonempty `oneOf` (and no `type`
entry, so that evaluation reaches the combinator): validation succeeds
only if exactly one branch validates; zero matching branches put a
distinct no-match error in the result, and two or more matching branches
put the ambiguity error in the result. -/
theorem c8_oneOf_exactly_one (v : JVal) (s : Schema) (path : String)
    (b : Schema) (rest : SList) (hty : s.ty = Option.none)
    (hone : s.oneOf = SList.cons b rest) :
    (validateNode v s path = [] → slCountValid v s.oneOf path = 1) ∧
    (slCountValid v s.oneOf path = 0 →
      ∃ m ∈ validateNode v s path,
        (pathLabel path ++
          " did not match any allowed schema option (oneOf)").data.isPrefixOf
          m.data = true) ∧
    (2 ≤ slCountValid v s.oneOf path →
      (pathLabel path ++
        " matches multiple schema options but oneOf expects exactly one") ∈
        validateNode v s path) := by
  rw [validateNode_tyNone v s path hty]
  rcases hgo : oneOfGo v (SList.cons b rest) path with ⟨cnt, msgs⟩
  have hcnt : cnt = slCountValid v s.oneOf path := by
    rw [hone, ← oneOfGo_count, hgo]
  have hblock : oneOfBlock v s.oneOf path (pathLabel path) =
      (if cnt = 0 then
        (let detail := String.intercalate "; " (msgs.filter (fun m => m ≠ ""))
         let base := pathLabel path ++ " did not match any allowed schema option (oneOf)"
         [if detail = "" then base else base ++ ": " ++ detail])
       else if 1 < cnt then
        [pathLabel path ++ " matches multiple schema options but oneOf expects exactly one"]
       else []) := by
    rw [hone, oneOfBlock, hgo]
  refine ⟨?_, ?_, ?_⟩
  · intro hnil
    rw [hblock] at hnil
    rcases List.append_eq_nil.mp hnil with ⟨-, h2⟩
    by_cases h0 : cnt = 0
    · simp [h0] at h2
    · by_cases h1 : 1 < cnt
      · simp [h0, h1] at h2
      · omega
  · intro h0
    rw [← hcnt] at h0
    rw [hblock, h0]
    simp only [if_pos rfl]
    obtain ⟨m, hm, hpre⟩ := prefix_mem_single
      (pathLabel path ++ " did not match any allowed schema option (oneOf)")
      (String.intercalate "; " (msgs.filter (fun m => m ≠ "")))
    exact ⟨m, List.mem_append_right _ hm, hpre⟩
  · intro h2
    rw [← hcnt] at h2
    rw [hblock]
    rw [if_neg (by omega), if_pos (by omega)]
    apply List.mem_append_right
    simp

/-- C8 (witness): the hypotheses hold at a concrete combinator-only node
with two branches. -/
theorem c8_oneOf_exactly_one_witness :
    ((Schema.mk Option.none Option.none Option.none Option.none Option.none
        Option.none SProps.nil [] SItems.none SList.nil
        (SList.cons emptySchema SList.nil)).ty = Option.none ∧
      (Schema.mk Option.none Option.none Option.none Option.none Option.none
        Option.none SProps.nil [] SItems.none SList.nil
        (SList.cons emptySchema SList.nil)).oneOf =
        SList.cons emptySchema SList.nil) ∧
    ((validateNode (JVal.int 5)
        (Schema.mk Option.none Option.none Option.none Option.none Option.none
          Option.none SProps.nil [] SItems.none SList.nil
          (SList.cons emptySchema SList.nil)) "" = [] →
      slCountValid (JVal.int 5)
        (Schema.mk Option.none Option.none Option.none Option.none Option.none
          Option.none SProps.nil [] SItems.none SList.nil
          (SList.cons emptySchema SList.nil)).oneOf "" = 1)) :=
  ⟨⟨rfl, rfl⟩,
    (c8_oneOf_exactly_one (JVal.int 5)
      (Schema.mk Option.none Option.none Option.none Option.none Option.none
        Option.none SProps.nil [] SItems.none SList.nil
        (SList.cons emptySchema SList.nil)) "" emptySchema SList.nil rfl rfl).1⟩

/-- The `enum` errors vanish exactly when the spec's `enum` membership
holds. -/
theorem enumBlock_nil_iff (v : JVal) (enum : Option (List JVal))
    (label : String) :
    enumBlock v enum label = [] ↔ enumOkB v enum = true := by
  cases enum with
  | none => simp [enumBlock, enumOkB]
  | some es =>
    by_cases h : es.any (fun e => jvalBeq v e) = true <;>
      simp [enumBlock, enumOkB, h]

/-- The numeric-bound errors vanish exactly when the spec's bounds hold. -/
theorem numBlock_nil_iff (ty : Option String) (v : JVal) (mn mx : Option Int)
    (label : String) :
    numBlock ty v mn mx label = [] ↔ numOkB ty v mn mx = true := by
  cases mn <;> cases mx <;>
    unfold numBlock numOkB <;> split_ifs <;> simp_all

/-- The string-length errors vanish exactly when the spec's length bounds
hold. -/
theorem strBlock_nil_iff (ty : Option String) (v : JVal) (mnl mxl : Option Nat)
    (label : String) :
    strBlock ty v mnl mxl label = [] ↔ strOkB ty v mnl mxl = true := by
  unfold strBlock strOkB
  by_cases hty : ty = Option.some "string"
  · rw [if_pos hty, if_pos hty]
    cases v with
    | str sv =>
      cases mnl <;> cases mxl <;> dsimp only [] <;> (try split_ifs) <;> simp_all
    | null => simp
    | bool b => simp
    | int n => simp
    | arr l => simp
    | obj f => simp
  · rw [if_neg hty, if_neg hty]
    simp

/-- The missing-required errors vanish exactly when every required key is
present. -/
theorem requiredBlock_nil_iff (required : List String)
    (fields : List (String × JVal)) (path : String) :
    requiredBlock required fields path = [] ↔ requiredOk required fields = true := by
  unfold requiredBlock requiredOk
  rw [List.filterMap_eq_nil_iff, List.all_eq_true]
  constructor
  · intro h key hk
    have := h key hk
    by_cases hp : fields.any (fun f => f.1 == key) = true
    · exact hp
    · simp [hp] at this
  · intro h key hk
    simp [h key hk]

mutual

/-- The validator accepts a node exactly when the spec's satisfaction
predicate holds of it. -/
theorem validateNode_nil_iff (v : JVal) (s : Schema) (path : String) :
    validateNode v s path = [] ↔ satisfiesNode v s = true := by
  rcases hty : s.ty with _ | td
  · simp only [validateNode, satisfiesNode, hty]
    exact validateWith_nil_iff v Option.none s path
  · cases td with
    | single t =>
      simp only [validateNode, satisfiesNode, hty]
      exact validateWith_nil_iff v (Option.some t) s path
    | union ts =>
      simp only [validateNode, satisfiesNode, hty]
      exact validateUnion_nil_iff v ts ts s path []
termination_by (sizeOf s, 3, 0)

/-- The union-type loop accepts exactly when some candidate type is
satisfied. -/
theorem validateUnion_nil_iff (v : JVal) (allTs remaining : List String)
    (s : Schema) (path : String) (ff : List String) :
    validateUnion v allTs remaining s path ff = [] ↔
      satisfiesAnyTy v remaining s = true := by
  match remaining with
  | [] => simp [validateUnion, satisfiesAnyTy]
  | t :: rest =>
    by_cases h : validateWith v (Option.some t) s path = []
    · have hs := (validateWith_nil_iff v (Option.some t) s path).mp h
      simp [validateUnion, satisfiesAnyTy, h, hs]
    · have hs : satisfiesWith v (Option.some t) s = false := by
        cases hb : satisfiesWith v (Option.some t) s with
        | true => exact absurd ((validateWith_nil_iff v (Option.some t) s path).mpr hb) h
        | false => rfl
      have ih := validateUnion_nil_iff v allTs rest s path
        (if ff = [] then validateWith v (Option.some t) s path else ff)
      simp [validateUnion, satisfiesAnyTy, h, hs, ih]
termination_by (sizeOf s, 2, remaining.length)

/-- The single-type body accepts exactly when every constraint of the node
is satisfied. -/
theorem validateWith_nil_iff (v : JVal) (ty : Option String) (s : Schema)
    (path : String) :
    validateWith v ty s path = [] ↔ satisfiesWith v ty s = true := by
  by_cases g1 : boolGuardBad ty v = true
  · simp [validateWith, satisfiesWith, g1]
  · by_cases g2 : typeCheckBad ty v = true
    · simp [validateWith, satisfiesWith, g1, g2]
    · have hobj : ((if ty = Option.some "object" then
          validateFieldsOpt v.objFields s.required s.props path else []) = []) ↔
          ((if ty = Option.some "object" then
            satisfiesFieldsOpt v.objFields s.required s.props else true) = true) := by
        by_cases h : ty = Option.some "object"
        · rw [if_pos h, if_pos h]
          exact validateFieldsOpt_nil_iff v.objFields s.required s.props path
        · simp [h]
      have harr : ((if ty = Option.some "array" then
          validateArrOpt v.arrElems s.items path else []) = []) ↔
          ((if ty = Option.some "array" then
            satisfiesArrOpt v.arrElems s.items else true) = true) := by
        by_cases h : ty = Option.some "array"
        · rw [if_pos h, if_pos h]
          exact validateArrOpt_nil_iff v.arrElems s.items path
        · simp [h]
      have hany := anyOfBlock_nil_iff v s.anyOf path (pathLabel path)
      have hone := oneOfBlock_nil_iff v s.oneOf path (pathLabel path)
      simp only [validateWith, satisfiesWith, g1, g2, Bool.false_eq_true,
        if_false, List.append_eq_nil, Bool.and_eq_true, Bool.not_eq_true']
      rw [enumBlock_nil_iff, numBlock_nil_iff, strBlock_nil_iff]
      rw [hobj, harr, hany, hone]
      have g1f : boolGuardBad ty v = false := by
        cases hb : boolGuardBad ty v with
        | true => exact absurd hb g1
        | false => rfl
      have g2f : typeCheckBad ty v = false := by
        cases hb : typeCheckBad ty v with
        | true => exact absurd hb g2
        | false => rfl
      simp [g1f, g2f, and_assoc]
termination_by (sizeOf s, 1, 0)
decreasing_by
  all_goals
    first
      | (apply Prod.Lex.left
         cases s with
         | mk t0 e0 mn0 mx0 ml0 mxl0 p0 r0 i0 a0 o0 =>
           simp only [Schema.props, Schema.items, Schema.anyOf, Schema.oneOf,
             Schema.mk.sizeOf_spec]
           omega)
      | decreasing_tactic

/-- The object branch accepts exactly when the spec's object constraints
hold. -/
theorem validateFieldsOpt_nil_iff (fo : Option (List (String × JVal)))
    (required : List String) (props : SProps) (path : String) :
    validateFieldsOpt fo required props path = [] ↔
      satisfiesFieldsOpt fo required props = true := by
  cases fo with
  | none => simp [validateFieldsOpt, satisfiesFieldsOpt]
  | some fields =>
    have h := validateFields_nil_iff fields props path
    simp [validateFieldsOpt, satisfiesFieldsOpt, List.append_eq_nil,
      requiredBlock_nil_iff, h, Bool.and_eq_true]
termination_by (sizeOf props, 4, 0)

/-- The property loop accepts exactly when every declared present key is
satisfied. -/
theorem validateFields_nil_iff (fields : List (String × JVal)) (props : SProps)
    (path : String) :
    validateFields fields props path = [] ↔
      satisfiesFields fields props = true := by
  match fields with
  | [] => simp [validateFields, satisfiesFields]
  | (k, value) :: rest =>
    have h1 := validatePropHit_nil_iff k value props path
    have h2 := validateFields_nil_iff rest props path
    simp [validateFields, satisfiesFields, List.append_eq_nil, h1, h2,
      Bool.and_eq_true]
termination_by (sizeOf props, 3, fields.length + 1)

/-- The per-key lookup accepts exactly when the declared child schema (if
any) is satisfied. -/
theorem validatePropHit_nil_iff (k : String) (value : JVal) (props : SProps)
    (path : String) :
    validatePropHit k value props path = [] ↔
      satisfiesPropHit k value props = true := by
  match props with
  | .nil => simp [validatePropHit, satisfiesPropHit]
  | .cons pk cs prest =>
    by_cases h : pk = k
    · have := validateNode_nil_iff value cs (childPath path k)
      simp [validatePropHit, satisfiesPropHit, h, this]
    · have := validatePropHit_nil_iff k value prest path
      simp [validatePropHit, satisfiesPropHit, h, this]
termination_by (sizeOf props, 2, 0)

/-- The array branch accepts exactly when the spec's array constraint
holds. -/
theorem validateArrOpt_nil_iff (eo : Option (List JVal)) (sitems : SItems)
    (path : String) :
    validateArrOpt eo sitems path = [] ↔ satisfiesArrOpt eo sitems = true := by
  cases eo with
  | none => simp [validateArrOpt, satisfiesArrOpt]
  | some elems =>
    have h := validateItemsOpt_nil_iff elems sitems path
    simp [validateArrOpt, satisfiesArrOpt, h]
termination_by (sizeOf sitems, 4, 0)

/-- The optional `items` recursion accepts exactly when the spec's `items`
constraint holds. -/
theorem validateItemsOpt_nil_iff (elems : List JVal) (sitems : SItems)
    (path : String) :
    validateItemsOpt elems sitems path = [] ↔
      satisfiesItemsOpt elems sitems = true := by
  cases sitems with
  | none => simp [validateItemsOpt, satisfiesItemsOpt]
  | some isch =>
    have h := validateItems_nil_iff elems 0 isch path
    simp [validateItemsOpt, satisfiesItemsOpt, h]
termination_by (sizeOf sitems, 3, 0)

/-- The element loop accepts exactly when every element satisfies
`items`. -/
theorem validateItems_nil_iff (elems : List JVal) (idx : Nat) (isch : Schema)
    (path : String) :
    validateItems elems idx isch path = [] ↔
      satisfiesItems elems isch = true := by
  match elems with
  | [] => simp [validateItems, satisfiesItems]
  | e :: rest =>
    have h1 := validateNode_nil_iff e isch (elemPath path idx)
    have h2 := validateItems_nil_iff rest (idx + 1) isch path
    simp [validateItems, satisfiesItems, List.append_eq_nil, h1, h2,
      Bool.and_eq_true]
termination_by (sizeOf isch, 3, elems.length + 1)

/-- The `anyOf` loop's matched flag is the spec's "some branch is
satisfied". -/
theorem anyOfGo_fst_eq (v : JVal) (variants : SList) (path : String) :
    (anyOfGo v variants path).1 = satisfiesAnySL v variants := by
  match variants with
  | .nil => simp [anyOfGo, satisfiesAnySL]
  | .cons b rest =>
    by_cases h : validateNode v b path = []
    · have hb := (validateNode_nil_iff v b path).mp h
      simp [anyOfGo, satisfiesAnySL, h, hb]
    · have hb : satisfiesNode v b = false := by
        cases hs : satisfiesNode v b with
        | true => exact absurd ((validateNode_nil_iff v b path).mpr hs) h
        | false => rfl
      have ih := anyOfGo_fst_eq v rest path
      rcases hgo : anyOfGo v rest path with ⟨matched, msgs⟩
      rw [hgo] at ih
      simp [anyOfGo, satisfiesAnySL, h, hb, hgo, ih]
termination_by (sizeOf variants, 1, 0)

/-- The `anyOf` block accepts exactly when the spec's `anyOf` constraint
holds. -/
theorem anyOfBlock_nil_iff (v : JVal) (variants : SList) (path label : String) :
    anyOfBlock v variants path label = [] ↔
      satisfiesAnyBlock v variants = true := by
  match variants with
  | .nil => simp [anyOfBlock, satisfiesAnyBlock]
  | .cons b rest =>
    have hm := anyOfGo_fst_eq v (SList.cons b rest) path
    rcases hgo : anyOfGo v (SList.cons b rest) path with ⟨matched, msgs⟩
    rw [hgo] at hm
    cases matched with
    | true => simp [anyOfBlock, satisfiesAnyBlock, hgo, ← hm]
    | false => simp [anyOfBlock, satisfiesAnyBlock, hgo, ← hm]
termination_by (sizeOf variants, 2, 0)

/-- The `oneOf` loop's count is the number of branches the spec accepts. -/
theorem oneOfGo_fst_sat (v : JVal) (variants : SList) (path : String) :
    (oneOfGo v variants path).1 = slCountSat v variants := by
  match variants with
  | .nil => simp [oneOfGo, slCountSat]
  | .cons b rest =>
    have ih := oneOfGo_fst_sat v rest path
    rcases hgo : oneOfGo v rest path with ⟨cnt, msgs⟩
    rw [hgo] at ih
    by_cases h : validateNode v b path = []
    · have hb := (validateNode_nil_iff v b path).mp h
      simp [oneOfGo, slCountSat, h, hb, hgo, ih]
      omega
    · have hb : satisfiesNode v b = false := by
        cases hs : satisfiesNode v b with
        | true => exact absurd ((validateNode_nil_iff v b path).mpr hs) h
        | false => rfl
      simp [oneOfGo, slCountSat, h, hb, hgo, ih]
termination_by (sizeOf variants, 1, 0)

/-- The `oneOf` block accepts exactly when the spec's exactly-one-branch
constraint holds. -/
theorem oneOfBlock_nil_iff (v : JVal) (variants : SList) (path label : String) :
    oneOfBlock v variants path label = [] ↔
      satisfiesOneBlock v variants = true := by
  match variants with
  | .nil => simp [oneOfBlock, satisfiesOneBlock]
  | .cons b rest =>
    have hm := oneOfGo_fst_sat v (SList.cons b rest) path
    rcases hgo : oneOfGo v (SList.cons b rest) path with ⟨cnt, msgs⟩
    rw [hgo] at hm
    by_cases h0 : cnt = 0
    · simp [oneOfBlock, satisfiesOneBlock, hgo, ← hm, h0]
    · by_cases h1 : 1 < cnt
      · simp only [oneOfBlock, satisfiesOneBlock, hgo]
        rw [if_neg h0, if_pos h1]
        simp [← hm]
        omega
      · have hc : cnt = 1 := by omega
        simp [oneOfBlock, satisfiesOneBlock, hgo, ← hm, h0, h1, hc]
termination_by (sizeOf variants, 2, 0)

end

/-- Forcing the type leaves the other schema entries unchanged. -/
theorem setTy_fields (s : Schema) (t : Option TyDecl) :
    (setTy s t).ty = t ∧ (setTy s t).required = s.required ∧
      (setTy s t).props = s.props := by
  cases s with
  | mk t0 e0 mn0 mx0 ml0 mxl0 p0 r0 i0 a0 o0 =>
    exact ⟨rfl, rfl, rfl⟩

/-- C3: `validate_params` accepts every argument object that satisfies the
tool's declared (object-typed) schema, and reports an error naming every
required key the arguments omit. -/
theorem c3_validate_params (s : Schema) (params : JVal)
    (htop : s.ty = Option.none ∨ s.ty = Option.some (TyDecl.single "object")) :
    (satisfiesNode params (setTy s (Option.some (TyDecl.single "object"))) = true →
      validateParams s params = Except.ok []) ∧
    (∀ key fields, params = JVal.obj fields → key ∈ s.required →
      fields.any (fun f => f.1 == key) = false →
      ∃ errs, validateParams s params = Except.ok errs ∧
        ("missing required " ++ key) ∈ errs) := by
  have hvp : validateParams s params =
      Except.ok (validateNode params
        (setTy s (Option.some (TyDecl.single "object"))) "") := by
    rcases htop with h | h <;> simp [validateParams, h]
  constructor
  · intro hsat
    rw [hvp,
      (validateNode_nil_iff params
        (setTy s (Option.some (TyDecl.single "object"))) "").mpr hsat]
  · intro key fields hp hk hmiss
    refine ⟨_, hvp, ?_⟩
    subst hp
    have hty2 := (setTy_fields s (Option.some (TyDecl.single "object"))).1
    have hreq2 := (setTy_fields s (Option.some (TyDecl.single "object"))).2.1
    have hmem : ("missing required " ++ key) ∈
        requiredBlock (setTy s (Option.some (TyDecl.single "object"))).required
          fields "" := by
      rw [hreq2, requiredBlock]
      rw [List.mem_filterMap]
      refine ⟨key, hk, ?_⟩
      rw [if_neg (by simp [hmiss]), childPath]
      simp
    have g1 : boolGuardBad (Option.some "object") (JVal.obj fields) = false := by
      simp [boolGuardBad, JVal.isBool]
    have g2 : typeCheckBad (Option.some "object") (JVal.obj fields) = false := by
      simp [typeCheckBad, typeKnown, typeMatches]
    have hobjmem : ("missing required " ++ key) ∈
        validateFieldsOpt (JVal.obj fields).objFields
          (setTy s (Option.some (TyDecl.single "object"))).required
          (setTy s (Option.some (TyDecl.single "object"))).props "" := by
      simp only [JVal.objFields, validateFieldsOpt]
      exact List.mem_append_left _ hmem
    simp only [validateNode, hty2, validateWith, g1, g2, Bool.false_eq_true,
      if_false]
    simp [List.mem_append, hobjmem]

/-- C3 (witness): a concrete object schema requiring `count`: an argument
object carrying a valid `count` validates cleanly, and omitting `count`
produces an error naming it. -/
theorem c3_validate_params_witness :
    ((Schema.mk (Option.some (TyDecl.single "object")) Option.none Option.none
        Option.none Option.none Option.none
        (SProps.cons "count"
          (Schema.mk (Option.some (TyDecl.single "integer")) Option.none
            Option.none Option.none Option.none Option.none SProps.nil []
            SItems.none SList.nil SList.nil) SProps.nil)
        ["count"] SItems.none SList.nil SList.nil).ty =
      Option.some (TyDecl.single "object")) ∧
    validateParams
      (Schema.mk (Option.some (TyDecl.single "object")) Option.none Option.none
        Option.none Option.none Option.none
        (SProps.cons "count"
          (Schema.mk (Option.some (TyDecl.single "integer")) Option.none
            Option.none Option.none Option.none Option.none SProps.nil []
            SItems.none SList.nil SList.nil) SProps.nil)
        ["count"] SItems.none SList.nil SList.nil)
      (JVal.obj [("count", JVal.int 2)]) = Except.ok [] ∧
    (∃ errs, validateParams
      (Schema.mk (Option.some (TyDecl.single "object")) Option.none Option.none
        Option.none Option.none Option.none
        (SProps.cons "count"
          (Schema.mk (Option.some (TyDecl.single "integer")) Option.none
            Option.none Option.none Option.none Option.none SProps.nil []
            SItems.none SList.nil SList.nil) SProps.nil)
        ["count"] SItems.none SList.nil SList.nil)
      (JVal.obj []) = Except.ok errs ∧
      ("missing required " ++ "count") ∈ errs) := by
  refine ⟨rfl, ?_, ?_⟩
  · apply (c3_validate_params
      (Schema.mk (Option.some (TyDecl.single "object")) Option.none Option.none
        Option.none Option.none Option.none
        (SProps.cons "count"
          (Schema.mk (Option.some (TyDecl.single "integer")) Option.none
            Option.none Option.none Option.none Option.none SProps.nil []
            SItems.none SList.nil SList.nil) SProps.nil)
        ["count"] SItems.none SList.nil SList.nil)
      (JVal.obj [("count", JVal.int 2)]) (Or.inr rfl)).1
    simp [satisfiesNode, satisfiesWith, satisfiesAnyTy, satisfiesFieldsOpt,
      satisfiesFields, satisfiesPropHit, satisfiesArrOpt, satisfiesItemsOpt,
      satisfiesItems, satisfiesAnyBlock, satisfiesOneBlock, slCountSat,
      boolGuardBad, typeCheckBad, enumOkB, numOkB, strOkB, requiredOk,
      typeKnown, typeMatches, JVal.isBool, JVal.objFields, JVal.arrElems,
      JVal.asInt, setTy, Schema.ty, Schema.enum, Schema.minimum, Schema.maximum,
      Schema.minLength, Schema.maxLength, Schema.props, Schema.required,
      Schema.items, Schema.anyOf, Schema.oneOf]
  · exact (c3_validate_params
      (Schema.mk (Option.some (TyDecl.single "object")) Option.none Option.none
        Option.none Option.none Option.none
        (SProps.cons "count"
          (Schema.mk (Option.some (TyDecl.single "integer")) Option.none
            Option.none Option.none Option.none Option.none SProps.nil []
            SItems.none SList.nil SList.nil) SProps.nil)
        ["count"] SItems.none SList.nil SList.nil)
      (JVal.obj []) (Or.inr rfl)).2 "count" [] rfl (by simp [Schema.required]) rfl

/-! ### C9: `normalize_args` collapses a relative and its absolute path -/

theorem goodSeg_spec {s : List Char} (h : goodSeg s = true) :
    s ≠ [] ∧ ∀ c ∈ s, c ≠ '/' ∧ c ≠ '.' := by
  constructor
  · intro hnil
    subst hnil
    simp [goodSeg] at h
  · intro c hc
    simp only [goodSeg, Bool.and_eq_true, List.all_eq_true] at h
    have h2 := h.2 c hc
    simp only [Bool.and_eq_true, decide_eq_true_eq] at h2
    exact h2

theorem goodSegs_ne_nil {segs : List (List Char)} (h : goodSegs segs = true) :
    segs ≠ [] := by
  intro hnil
  subst hnil
  simp [goodSegs] at h

theorem goodSegs_all {segs : List (List Char)} (h : goodSegs segs = true) :
    ∀ s ∈ segs, goodSeg s = true := by
  simp only [goodSegs, Bool.and_eq_true, List.all_eq_true] at h
  exact h.2

theorem mem_of_getLastOpt {α : Type} {l : List α} {x : α}
    (h : x ∈ l.getLast?) : x ∈ l := by
  obtain ⟨hne, h2⟩ := List.mem_getLast?_eq_getLast h
  rw [h2]
  exact List.getLast_mem hne

theorem splitSlash_slash_cons (r : List Char) :
    splitSlash ('/' :: r) = [] :: splitSlash r := by
  simp [splitSlash]

theorem splitSlash_append_slash (s : List Char) (r : List Char)
    (hs : '/' ∉ s) : splitSlash (s ++ '/' :: r) = s :: splitSlash r := by
  induction s with
  | nil => simpa using splitSlash_slash_cons r
  | cons c s ih =>
    have hc : c ≠ '/' := by
      intro h
      exact hs (by simp [h])
    have hrec := ih (fun hm => hs (List.mem_cons_of_mem _ hm))
    simp only [List.cons_append, splitSlash, if_neg hc]
    show (c :: (splitSlash (s ++ '/' :: r)).headD []) ::
        (splitSlash (s ++ '/' :: r)).tail = (c :: s) :: splitSlash r
    rw [hrec]
    simp

theorem splitSlash_joinSegs : ∀ (segs : List (List Char)), segs ≠ [] →
    (∀ s ∈ segs, '/' ∉ s) → ∀ r : List Char,
    splitSlash (joinSegs segs ++ '/' :: r) = segs ++ splitSlash r := by
  intro segs
  induction segs with
  | nil => intro h; exact absurd rfl h
  | cons s rest ih =>
    intro _ hs r
    cases rest with
    | nil =>
      simp only [joinSegs]
      rw [splitSlash_append_slash s r (hs s (List.mem_cons_self _ _))]
      rfl
    | cons t r2 =>
      have hih := ih (by simp) (fun x hx => hs x (List.mem_cons_of_mem _ hx)) r
      simp only [joinSegs, List.cons_append, List.append_assoc]
      rw [splitSlash_append_slash s _ (hs s (List.mem_cons_self _ _)), hih]
      simp

theorem normSegsAux_good : ∀ (segs acc rest : List (List Char)),
    (∀ s ∈ segs, goodSeg s = true) →
    normSegsAux acc (segs ++ rest) = normSegsAux (segs.reverse ++ acc) rest := by
  intro segs
  induction segs with
  | nil => intro acc rest _; rfl
  | cons s ss ih =>
    intro acc rest hall
    have hsp := goodSeg_spec (hall s (List.mem_cons_self _ _))
    have h1 : ¬(s = [] ∨ s = ['.']) := by
      rintro (h | h)
      · exact hsp.1 h
      · subst h
        exact (hsp.2 '.' (List.mem_cons_self _ _)).2 rfl
    have h2 : s ≠ ['.', '.'] := by
      intro h
      subst h
      exact (hsp.2 '.' (List.mem_cons_self _ _)).2 rfl
    simp only [List.cons_append, normSegsAux, if_neg h1, if_neg h2]
    show normSegsAux (s :: acc) (ss ++ rest) = normSegsAux ((s :: ss).reverse ++ acc) rest
    rw [ih (s :: acc) rest (fun x hx => hall x (List.mem_cons_of_mem _ hx))]
    simp [List.reverse_cons, List.append_assoc]

theorem joinSegs_append_single : ∀ (segs : List (List Char)), segs ≠ [] →
    ∀ x : List Char, joinSegs (segs ++ [x]) = joinSegs segs ++ '/' :: x := by
  intro segs
  induction segs with
  | nil => intro h; exact absurd rfl h
  | cons s ss ih =>
    intro _ x
    cases ss with
    | nil => rfl
    | cons t r2 =>
      simp only [List.cons_append, joinSegs]
      have hco : t :: List.append r2 [x] = (t :: r2) ++ [x] := rfl
      rw [hco, ih (by simp) x]
      simp [joinSegs, List.append_assoc]

theorem noDot_joinSegs : ∀ (segs : List (List Char)),
    (∀ s ∈ segs, goodSeg s = true) → '.' ∉ joinSegs segs := by
  intro segs
  induction segs with
  | nil => intro _ h; exact (List.not_mem_nil _) h
  | cons s ss ih =>
    intro hall hmem
    cases ss with
    | nil =>
      exact ((goodSeg_spec (hall s (List.mem_cons_self _ _))).2 '.' hmem).2 rfl
    | cons t r2 =>
      have hmem2 : '.' ∈ s ++ '/' :: joinSegs (t :: r2) := hmem
      rcases List.mem_append.mp hmem2 with h | h
      · exact ((goodSeg_spec (hall s (List.mem_cons_self _ _))).2 '.' h).2 rfl
      · rcases List.mem_cons.mp h with h | h
        · exact absurd h (by decide)
        · exact ih (fun x hx => hall x (List.mem_cons_of_mem _ hx)) h

theorem chain_of_noDot {l : List Char} (h : '.' ∉ l) :
    List.Chain' (fun a b => ¬(a = '.' ∧ b = '/')) l := by
  induction l with
  | nil => exact List.chain'_nil
  | cons c r ih =>
    rw [List.chain'_cons']
    refine ⟨?_, ih (fun hm => h (List.mem_cons_of_mem _ hm))⟩
    intro b _ hab
    rcases hab with ⟨rfl, -⟩
    exact h (List.mem_cons_self _ _)

theorem tryMatch_none_of_chain : ∀ (l : List Char),
    List.Chain' (fun a b => ¬(a = '.' ∧ b = '/')) l → tryMatch l = none := by
  intro l h
  cases l with
  | nil => rfl
  | cons c1 t =>
    cases t with
    | nil => rfl
    | cons c2 rest =>
      rw [List.chain'_cons] at h
      by_cases h1 : c1 = '.'
      · by_cases h2 : c2 = '.'
        · cases rest with
          | nil =>
            subst h1
            subst h2
            rfl
          | cons c3 rest2 =>
            by_cases h3 : c3 = '/'
            · exfalso
              rw [List.chain'_cons] at h
              exact h.2.1 ⟨h2, h3⟩
            · subst h1
              subst h2
              simp [tryMatch, h3]
        · by_cases h2s : c2 = '/'
          · exact absurd ⟨h1, h2s⟩ h.1
          · subst h1
            simp [tryMatch, h2, h2s]
      · simp [tryMatch, h1]

theorem subDotsF_eq_self (root : List Char) : ∀ (fuel : Nat) (l : List Char),
    List.Chain' (fun a b => ¬(a = '.' ∧ b = '/')) l →
    subDotsF root fuel l = l := by
  intro fuel
  induction fuel with
  | zero => intro l _; rfl
  | succ n ih =>
    intro l h
    cases l with
    | nil => rfl
    | cons c r =>
      have hm := tryMatch_none_of_chain _ h
      simp only [subDotsF, hm]
      rw [ih r (List.Chain'.tail h)]

set_option maxRecDepth 20000 in
theorem subDots_cat_rel (root : List Char) :
    subDots root (("cat ./f.txt").data) =
      'c' :: 'a' :: 't' :: ' ' ::
        resolvePath root ('.' :: '/' :: 'f' :: '.' :: 't' :: 'x' :: 't' :: []) := by
  have h : subDots root (("cat ./f.txt").data) =
      'c' :: 'a' :: 't' :: ' ' ::
        (resolvePath root ('.' :: '/' :: 'f' :: '.' :: 't' :: 'x' :: 't' :: []) ++ []) := rfl
  rw [h, List.append_nil]

theorem resolvePath_rel (segs : List (List Char)) (hgood : goodSegs segs = true) :
    resolvePath (canonPath segs) ('.' :: '/' :: 'f' :: '.' :: 't' :: 'x' :: 't' :: []) =
      canonPath segs ++ '/' :: 'f' :: '.' :: 't' :: 'x' :: 't' :: [] := by
  have hne := goodSegs_ne_nil hgood
  have hall := goodSegs_all hgood
  have hsl : ∀ s ∈ segs, '/' ∉ s :=
    fun s hs hm => ((goodSeg_spec (hall s hs)).2 '/' hm).1 rfl
  have h1 : splitSlash (canonPath segs ++
        '/' :: '.' :: '/' :: 'f' :: '.' :: 't' :: 'x' :: 't' :: []) =
      [] :: (segs ++ [['.'], ['f', '.', 't', 'x', 't']]) := by
    show splitSlash ('/' :: (joinSegs segs ++
        '/' :: '.' :: '/' :: 'f' :: '.' :: 't' :: 'x' :: 't' :: [])) = _
    rw [splitSlash_slash_cons, splitSlash_joinSegs segs hne hsl]
    rfl
  calc resolvePath (canonPath segs)
        ('.' :: '/' :: 'f' :: '.' :: 't' :: 'x' :: 't' :: [])
      = canonPath (normSegsAux [] (splitSlash (canonPath segs ++
          '/' :: '.' :: '/' :: 'f' :: '.' :: 't' :: 'x' :: 't' :: []))) := rfl
    _ = canonPath (normSegsAux []
          ([] :: (segs ++ [['.'], ['f', '.', 't', 'x', 't']]))) := by rw [h1]
    _ = canonPath (normSegsAux [] (segs ++ [['.'], ['f', '.', 't', 'x', 't']])) := rfl
    _ = canonPath (normSegsAux (segs.reverse ++ [])
          [['.'], ['f', '.', 't', 'x', 't']]) := by
          rw [normSegsAux_good segs [] _ hall]
    _ = canonPath ((['f', '.', 't', 'x', 't'] :: segs.reverse).reverse) := by
          rw [List.append_nil]
          rfl
    _ = canonPath (segs ++ [['f', '.', 't', 'x', 't']]) := by
          rw [List.reverse_cons, List.reverse_reverse]
    _ = canonPath segs ++ '/' :: 'f' :: '.' :: 't' :: 'x' :: 't' :: [] := by
          show '/' :: joinSegs (segs ++ [['f', '.', 't', 'x', 't']]) = _
          rw [joinSegs_append_single segs hne]
          rfl

theorem normalizeArgs_exec_congr (root : List Char) (c1 c2 : String)
    (h : subDots root c1.data = subDots root c2.data) :
    normalizeArgs root "exec" [("command", JVal.str c1)] =
    normalizeArgs root "exec" [("command", JVal.str c2)] := by
  show jsonDumps [("command", JVal.str (String.mk (collapseSlashes
      (dropDriveLetters (backslashToSlash (subDots root c1.data))))))] =
    jsonDumps [("command", JVal.str (String.mk (collapseSlashes
      (dropDriveLetters (backslashToSlash (subDots root c2.data))))))]
  rw [h]

theorem chain_tail_concrete : List.Chain' (fun a b => ¬(a = '.' ∧ b = '/'))
    ('/' :: 'f' :: '.' :: 't' :: 'x' :: 't' :: []) := by
  rw [List.chain'_cons, List.chain'_cons, List.chain'_cons, List.chain'_cons,
    List.chain'_cons]
  exact ⟨by decide, by decide, by decide, by decide, by decide,
    List.chain'_singleton _⟩

theorem chain_cat_concrete : List.Chain' (fun a b => ¬(a = '.' ∧ b = '/'))
    (("cat ").data) := by
  show List.Chain' (fun a b => ¬(a = '.' ∧ b = '/'))
    ('c' :: 'a' :: 't' :: ' ' :: [])
  rw [List.chain'_cons, List.chain'_cons, List.chain'_cons]
  exact ⟨by decide, by decide, by decide, List.chain'_singleton _⟩

set_option maxRecDepth 20000 in
/-- C9: for a detector whose workspace root is the well-formed absolute path
`W = canonPath segs`, `normalize_args` maps the exec command `cat ./f.txt`
and the exec command `cat ` ++ `str(W / "f.txt")` to the same signature
string: the relative reference `./f.txt` is rewritten to its resolved
absolute form under `W`, so the two semantically identical read commands
collapse to one signature. -/
theorem c9_normalize_args_relative_resolved (segs : List (List Char))
    (hgood : goodSegs segs = true) :
    normalizeArgs (canonPath segs) "exec"
      [("command", JVal.str "cat ./f.txt")] =
    normalizeArgs (canonPath segs) "exec"
      [("command", JVal.str (String.mk (("cat ").data ++
        (canonPath segs ++ '/' :: 'f' :: '.' :: 't' :: 'x' :: 't' :: []))))] := by
  apply normalizeArgs_exec_congr
  have hnd : '.' ∉ canonPath segs := by
    intro hm
    rcases List.mem_cons.mp hm with h | h
    · exact absurd h (by decide)
    · exact noDot_joinSegs segs (goodSegs_all hgood) h
  have hch2 : List.Chain' (fun a b => ¬(a = '.' ∧ b = '/'))
      (canonPath segs ++ '/' :: 'f' :: '.' :: 't' :: 'x' :: 't' :: []) := by
    refine List.Chain'.append (chain_of_noDot hnd) chain_tail_concrete ?_
    intro x hx y _ hcon
    rcases hcon with ⟨rfl, -⟩
    exact hnd (mem_of_getLastOpt hx)
  have hch : List.Chain' (fun a b => ¬(a = '.' ∧ b = '/'))
      (("cat ").data ++ (canonPath segs ++
        '/' :: 'f' :: '.' :: 't' :: 'x' :: 't' :: [])) := by
    refine List.Chain'.append chain_cat_concrete hch2 ?_
    intro x hx y _ hcon
    rcases hcon with ⟨rfl, -⟩
    rw [Option.mem_def] at hx
    exact absurd hx (by decide)
  rw [subDots_cat_rel, resolvePath_rel segs hgood]
  exact (subDotsF_eq_self _ _ _ hch).symm

/-- Concrete instance of the C9 theorem at the workspace root `/tmp/ws`. -/
theorem c9_normalize_args_relative_resolved_witness :
    goodSegs [['t', 'm', 'p'], ['w', 's']] = true ∧
    normalizeArgs (canonPath [['t', 'm', 'p'], ['w', 's']]) "exec"
      [("command", JVal.str "cat ./f.txt")] =
    normalizeArgs (canonPath [['t', 'm', 'p'], ['w', 's']]) "exec"
      [("command", JVal.str (String.mk (("cat ").data ++
        (canonPath [['t', 'm', 'p'], ['w', 's']] ++
          '/' :: 'f' :: '.' :: 't' :: 'x' :: 't' :: []))))] :=
  ⟨by decide, c9_normalize_args_relative_resolved [['t', 'm', 'p'], ['w', 's']]
    (by decide)⟩

end Nanobot
